import Mathlib

/-!
Verification development for the list-hunter scraper.

Shallow embedding of the crawl/fetch orchestration core:
  - `src/config.py` constants,
  - `src/http_client.py` challenge detection and the `ScraperClient`
    retry ladder (tenacity 8.2.2 semantics),
  - `src/commands/crawl_listings.py` per-practice-area page loop,
    resume/merge/cleanup pipeline,
  - `src/commands/fetch_profiles.py` two-phase bulk fetch and status file,
  - the atomic-write discipline over an abstract crash-prone disk.

Python dicts are modelled as insertion-ordered association lists with
unique keys, Python sets as insertion-ordered duplicate-free lists, and
network input as explicit oracles.  The orchestrator is modelled under
the sequential schedule (one cooperative interleaving of the
single-threaded event loop).
-/

namespace ListHunter

/-! ## config.py -/

namespace Config

/-- config.py line 25: `MAX_RETRIES = 3`. -/
def MAX_RETRIES : Nat := 3

/-- config.py line 26: `RETRY_BACKOFF_BASE = 2.0` (exact in binary floating point,
so a rational embedding is faithful). -/
def RETRY_BACKOFF_BASE : ℚ := 2

/-- config.py line 29: `MAX_PAGES_PER_CATEGORY = 200`. -/
def MAX_PAGES_PER_CATEGORY : Nat := 200

end Config

/-! ## http_client.py: Cloudflare challenge detection -/

/-- The character list `pat` occurs at the head of the character list. -/
def startsWithChars : List Char → List Char → Bool
  | [], _ => true
  | _ :: _, [] => false
  | a :: as, b :: bs => a == b && startsWithChars as bs

/-- The character list `pat` occurs consecutively somewhere in the text. -/
def hasSubChars (pat : List Char) : List Char → Bool
  | [] => pat.isEmpty
  | c :: rest => startsWithChars pat (c :: rest) || hasSubChars pat rest

/-- Python `pat in s` substring test. -/
def strContains (s pat : String) : Bool := hasSubChars pat.data s.data

/-- http_client.py lines 37-45: `_CLOUDFLARE_MARKERS`. -/
def CLOUDFLARE_MARKERS : List String :=
  ["<title>Just a moment...</title>",
   "challenge-platform",
   "Verifying you are human",
   "cf-turnstile",
   "cf-chl-opt",
   "Attention Required!",
   "cf_clearance"]

/-- http_client.py lines 56-58: `is_cloudflare_challenge`. -/
def is_cloudflare_challenge (html : String) : Bool :=
  CLOUDFLARE_MARKERS.any (fun marker => strContains html marker)

/-- Python `dict.get(k, default)` on a header mapping. -/
def headerGet (hs : List (String × String)) (k dflt : String) : String :=
  match hs.lookup k with
  | some v => v
  | none => dflt

/-- http_client.py lines 61-71: `is_cloudflare_challenge_response`.
`response_headers` is optional and an empty dict is falsy in Python,
hence the emptiness test. -/
def is_cloudflare_challenge_response (html : String)
    (response_headers : Option (List (String × String))) : Bool :=
  if CLOUDFLARE_MARKERS.any (fun marker => strContains html marker) then
    true
  else
    match response_headers with
    | none => false
    | some hs =>
      if hs.isEmpty then false
      else strContains (headerGet hs "cf-mitigated" "").toLower "challenge"

/-! ## Python dict / set models -/

/-- Abstract record payload (the `record.to_dict()` of a listing card). -/
abbrev RecPayload := String

/-- A Python dict `{uuid: record}`: insertion-ordered association list
with unique keys. -/
abbrev RecMap := List (String × RecPayload)

/-- Python dict lookup: first (and, with unique keys, only) binding. -/
def rmGet (k : String) : RecMap → Option RecPayload
  | [] => none
  | e :: rest => if e.1 = k then some e.2 else rmGet k rest

/-- Python `k in d`. -/
def rmHasKey (m : RecMap) (k : String) : Bool := (rmGet k m).isSome

/-- Keys of the dict, in insertion order. -/
def rmKeys (m : RecMap) : List String := m.map Prod.fst

/-- Python `set.update`: add each element not already present (modelled as
an insertion-ordered duplicate-free list). -/
def setUpdate (s : List String) (us : List String) : List String :=
  us.foldl (fun acc u => if u ∈ acc then acc else acc ++ [u]) s

/-! ## crawl_listings.py: CrawlState -/

/-- crawl_listings.py lines 57-80: the shared `CrawlState` of parallel
practice-area workers (`max_results`, `stop_event`, `global_uuids`). -/
structure CrawlState where
  max_results : Option Nat
  stopFlag : Bool
  global_uuids : List String
deriving Repr, DecidableEq

/-- crawl_listings.py lines 71-80: `CrawlState.add_uuids`.  Registers the
UUIDs, and if `max_results` is set (Python-truthy, so nonzero) and the
global set has reached it, sets the stop event and reports `true`. -/
def CrawlState.add_uuids (st : CrawlState) (uuids : List String) : CrawlState × Bool :=
  let g := setUpdate st.global_uuids uuids
  let capped : Bool :=
    match st.max_results with
    | some n => decide (n ≠ 0) && decide (n ≤ g.length)
    | none => false
  if capped then
    ({ st with global_uuids := g, stopFlag := true }, true)
  else
    ({ st with global_uuids := g }, false)

/-- crawl_listings.py lines 68-69: `CrawlState.should_stop`. -/
def CrawlState.should_stop (st : CrawlState) : Bool := st.stopFlag

/-! ## crawl_listings.py: the per-practice-area page loop -/

/-- One parsed listing card: a UUID plus its `to_dict()` payload. -/
structure Card where
  uuid : String
  payload : RecPayload
deriving Repr, DecidableEq

/-- crawl_listings.py lines 191-195: fold the parsed cards into
`pa_records`, counting how many were new for this practice area. -/
def addCards (recs : RecMap) (cards : List Card) : RecMap × Nat :=
  cards.foldl
    (fun acc c =>
      if rmHasKey acc.1 c.uuid then acc
      else (acc.1 ++ [(c.uuid, c.payload)], acc.2 + 1))
    (recs, 0)

/-- crawl_listings.py lines 140-225: the `while page <= MAX_PAGES` loop of
`_crawl_one_pa`.  `fetchPage p` is the html obtained for page `p` after
the two-tier (httpx then browser) block, `none` when both tiers failed;
`parse` is `parse_listing_page`.  The returned log records, per page
actually fetched, the pair `(page, new_count)`.  `fuel` counts the pages
the `while` guard still allows. -/
def crawlFrom (fetchPage : Nat → Option String) (parse : String → List Card) :
    Nat → Nat → CrawlState → RecMap → CrawlState × RecMap × List (Nat × Nat)
  | 0, _, st, recs => (st, recs, [])
  | fuel + 1, page, st, recs =>
    if st.should_stop then (st, recs, [])
    else
      match fetchPage page with
      | none => (st, recs, [(page, 0)])
      | some html =>
        let cards := parse html
        if cards.isEmpty then (st, recs, [(page, 0)])
        else
          let added := addCards recs cards
          if added.2 = 0 then (st, added.1, [(page, 0)])
          else
            let reg := added.1
            let cap := st.add_uuids (rmKeys reg)
            if cap.2 then (cap.1, reg, [(page, added.2)])
            else
              let rest := crawlFrom fetchPage parse fuel (page + 1) cap.1 reg
              (rest.1, rest.2.1, (page, added.2) :: rest.2.2)

/-- `_crawl_one_pa` starts at page 1 with empty `pa_records`. -/
def crawlOnePa (fetchPage : Nat → Option String) (parse : String → List Card)
    (st : CrawlState) : CrawlState × RecMap × List (Nat × Nat) :=
  crawlFrom fetchPage parse Config.MAX_PAGES_PER_CATEGORY 1 st []

/-! ## crawl_listings.py: data-directory state, resume, merge, cleanup -/

/-- The JSON artifacts of the data directory that `crawl_listings.run`
touches: the per-practice-area checkpoint files `listings_{slug}.json`
(keyed here by slug), the final `listings.json`, and the legacy
`crawl_progress.json` manifest. -/
structure DataDir where
  paFiles : List (String × RecMap)
  listings : Option RecMap
  progressFile : Bool
deriving Repr, DecidableEq

/-- Membership of `listings_{slug}.json` in the directory. -/
def DataDir.hasPa (fs : DataDir) (slug : String) : Bool :=
  fs.paFiles.any (fun f => f.1 == slug)

/-- Writing `listings_{slug}.json` (an `os.replace` overwrites any
existing file of the same name). -/
def DataDir.setPa (fs : DataDir) (slug : String) (recs : RecMap) : DataDir :=
  if fs.hasPa slug then
    { fs with paFiles := fs.paFiles.map (fun f => if f.1 == slug then (slug, recs) else f) }
  else
    { fs with paFiles := fs.paFiles ++ [(slug, recs)] }

/-- crawl_listings.py lines 227-237: after the page loop, write the
per-PA checkpoint file, but only when `pa_records` is nonempty. -/
def writePaFile (fs : DataDir) (slug : String) (recs : RecMap) : DataDir :=
  if recs.isEmpty then fs else fs.setPa slug recs

/-- One unit of `run`: crawl a practice area and persist its checkpoint.
Also emits the fetch log, tagged with the slug. -/
def crawlUnit (oracle : String → Nat → Option String) (parse : String → List Card)
    (slug : String) (st : CrawlState) (fs : DataDir) :
    CrawlState × DataDir × List (String × Nat × Nat) :=
  let r := crawlFrom (oracle slug) parse Config.MAX_PAGES_PER_CATEGORY 1 st []
  (r.1, writePaFile fs slug r.2.1, r.2.2.map (fun e => (slug, e)))

/-- crawl_listings.py lines 362-407: the worker pool over the remaining
practice areas, sharing one `CrawlState`, modelled under the sequential
schedule of the event loop. -/
def runUnits (oracle : String → Nat → Option String) (parse : String → List Card) :
    List String → CrawlState → DataDir →
    CrawlState × DataDir × List (String × Nat × Nat)
  | [], st, fs => (st, fs, [])
  | pa :: rest, st, fs =>
    let r := crawlUnit oracle parse pa st fs
    let rr := runUnits oracle parse rest r.1 r.2.1
    (rr.1, rr.2.1, r.2.2 ++ rr.2.2)

/-- Python string comparison: lexicographic by Unicode code point. -/
def charsLe : List Char → List Char → Bool
  | [], _ => true
  | _ :: _, [] => false
  | a :: as, b :: bs =>
    if a < b then true
    else if b < a then false
    else charsLe as bs

/-- Python `s1 <= s2` on strings. -/
def slugLe (a b : String) : Bool := charsLe a.data b.data

/-- crawl_listings.py line 258: `sorted(completed_files.items())` —
checkpoint files processed in sorted order of slug (slugs are unique,
being dict keys / file names, so the tuple order is the slug order;
Python compares strings lexicographically by code point). -/
def sortPaFiles (files : List (String × RecMap)) : List (String × RecMap) :=
  files.insertionSort (fun a b => slugLe a.1 b.1 = true)

/-- crawl_listings.py lines 261-263: insert a record only when its UUID
is not yet present (first occurrence wins). -/
def rmInsAbs (acc : RecMap) (e : String × RecPayload) : RecMap :=
  if rmHasKey acc e.1 then acc else acc ++ [e]

/-- crawl_listings.py lines 253-269: `_merge_pa_files`.  Load every
per-PA file in sorted slug order, union records keyed by UUID with
first-seen-wins, then apply the `max_results` trim (Python truthiness:
a `max_results` of 0 or None disables the trim). -/
def merge_pa_files (files : List (String × RecMap)) (max_results : Option Nat) : RecMap :=
  let all := (sortPaFiles files).foldl (fun acc f => f.2.foldl rmInsAbs acc) []
  match max_results with
  | some n => if n ≠ 0 ∧ n < all.length then all.take n else all
  | none => all

/-- crawl_listings.py lines 272-282: `_cleanup_pa_files` removes every
`listings_{slug}.json` and `crawl_progress.json`; `listings.json` does
not match the `listings_*.json` glob and is kept. -/
def cleanup_pa_files (fs : DataDir) : DataDir :=
  { fs with paFiles := [], progressFile := false }

/-- crawl_listings.py lines 349-351: the resume partition.  A practice
area is skipped exactly when a `listings_{slug}.json` checkpoint exists;
the rest form the remaining work list. -/
def remainingUnits (practice_areas : List String) (fs : DataDir) : List String :=
  practice_areas.filter (fun pa => ¬ fs.hasPa pa)

/-- crawl_listings.py lines 285-433: `run` (with `pa_filter = None`).
Force-cleanup, resume partition (lines 343-357), crawl of the remaining
units, merge, atomic write of `listings.json`, final cleanup (lines
420-433).  Returns the resulting data directory and the fetch log. -/
def crawlListingsRun (oracle : String → Nat → Option String) (parse : String → List Card)
    (practice_areas : List String) (force : Bool) (max_results : Option Nat)
    (fs : DataDir) : DataDir × List (String × Nat × Nat) :=
  let fs1 := if force then cleanup_pa_files fs else fs
  let remaining := remainingUnits practice_areas fs1
  let r := runUnits oracle parse remaining (CrawlState.mk max_results false []) fs1
  let merged := merge_pa_files r.2.1.paFiles max_results
  let fs2 := { r.2.1 with listings := some merged }
  (cleanup_pa_files fs2, r.2.2)

/-! ## Atomic writes over a crash-prone disk (crawl_listings._atomic_write
versus fetch_profiles._write_status) -/

/-- State of one path on disk: absent, a fully written file, or the
truncated remains of a write interrupted after `n` of the bytes of `s`. -/
inductive FileState where
  | absent
  | whole (s : String)
  | truncated (s : String) (n : Nat)
deriving Repr, DecidableEq

/-- Whether a reader of the path sees a non-corrupted state (either no
file or a completely written one). -/
def FileState.readable : FileState → Bool
  | .absent => true
  | .whole _ => true
  | .truncated _ _ => false

/-- The disk as a map from path to file state. -/
abbrev Disk := String → FileState

def Disk.set (d : Disk) (p : String) (st : FileState) : Disk :=
  fun q => if q = p then st else d q

/-- Primitive filesystem operations: an in-place file write (not atomic:
a crash can leave a truncated file) and `os.replace` (atomic rename). -/
inductive FsOp where
  | write (path s : String)
  | rename (src dst : String)
deriving Repr, DecidableEq

def applyOp (d : Disk) : FsOp → Disk
  | .write p s => d.set p (.whole s)
  | .rename src dst => (d.set dst (d src)).set src .absent

def runOps (d : Disk) (ops : List FsOp) : Disk := ops.foldl applyOp d

/-- The effect of crashing in the middle of an operation: a `write` may
leave a truncated file at its path; a `rename` is atomic, so an
interrupted rename leaves the disk unchanged. -/
def tearOp (d : Disk) : FsOp → Nat → Disk
  | .write p s, n => d.set p (.truncated s n)
  | .rename _ _, _ => d

/-- The disk visible after a crash: the first `i` operations completed,
and, when `torn` and operation `i` exists, that operation was
interrupted mid-way. -/
def crashDisk (d : Disk) (ops : List FsOp) (i : Nat) (torn : Bool) (n : Nat) : Disk :=
  let dpre := runOps d (ops.take i)
  if torn then
    match ops.get? i with
    | some op => tearOp dpre op n
    | none => dpre
  else dpre

/-- crawl_listings.py lines 49-54: `_atomic_write` writes
`path + ".tmp"` and then `os.replace`s it over `path`. -/
def atomicWriteOps (path data : String) : List FsOp :=
  [.write (path ++ ".tmp") data, .rename (path ++ ".tmp") path]

/-- fetch_profiles.py lines 191-194: `_write_status` opens
`fetch_status.json` for writing and dumps the JSON directly — no
temporary file and no rename. -/
def writeStatusOps (path data : String) : List FsOp :=
  [.write path data]

/-! ## http_client.py: ScraperClient fetch with tenacity retry -/

/-- Outcome of one `self._crawler.arun(url)` call: an exception, or a
result carrying `status_code`, `success`, `html`, `response_headers`
and `error_message`. -/
inductive ArunOutcome where
  | exc
  | res (status : Nat) (success : Bool) (html : String)
        (response_headers : Option (List (String × String)))
deriving DecidableEq

/-- Result of one `_single_fetch` attempt: a returned value (the html,
or `none` for a 404) or a raised `FetchError`. -/
inductive AttemptResult where
  | value (v : Option String)
  | fetchError
deriving Repr, DecidableEq

/-- http_client.py lines 218-258: `_single_fetch`.  An `arun` exception
raises `FetchError`; a 404 returns `None` (no retry); a successful
transport with a Python-truthy html either raises `FetchError` on a
Cloudflare challenge or returns the html; anything else raises
`FetchError`. -/
def single_fetch : ArunOutcome → AttemptResult
  | .exc => .fetchError
  | .res status success html response_headers =>
    if status = 404 then .value none
    else if success = true ∧ html ≠ "" then
      if is_cloudflare_challenge_response html response_headers then .fetchError
      else .value (some html)
    else .fetchError

/-- tenacity 8.2.2 `wait_exponential(multiplier, max, exp_base := 2, min)`:
after failed attempt number `k`, sleep
`max (max 0 min) (min (multiplier * 2 ^ (k - 1)) max)`. -/
def tenacityWaitExp (multiplier mn mx : ℚ) (attemptNumber : Nat) : ℚ :=
  max (max 0 mn) (min (multiplier * 2 ^ (attemptNumber - 1)) mx)

/-- http_client.py lines 202-209: the wait configured by
`_fetch_with_retry` — `multiplier = min = RETRY_BACKOFF_BASE` and
`max = RETRY_BACKOFF_BASE ** MAX_RETRIES`. -/
def retryWait (attemptNumber : Nat) : ℚ :=
  tenacityWaitExp Config.RETRY_BACKOFF_BASE Config.RETRY_BACKOFF_BASE
    (Config.RETRY_BACKOFF_BASE ^ Config.MAX_RETRIES) attemptNumber

/-- Observable outcome of the retry ladder: the value returned (when the
last attempt returned), whether the ladder re-raised after exhausting
all attempts, the number of physical attempts performed, and the list
of backoff sleeps in order. -/
structure RetryOutcome where
  result : Option String
  raised : Bool
  attemptsMade : Nat
  waits : List ℚ
deriving Repr, DecidableEq

/-- http_client.py lines 193-216 with tenacity 8.2.2 semantics:
attempt number `k` runs `single_fetch`; a returned value stops the
ladder; a `FetchError` with `stop_after_attempt(MAX_RETRIES)` reached
re-raises (`reraise=True`), otherwise the ladder sleeps
`retryWait k` and moves to attempt `k + 1`.  `remaining` is the number
of attempts the stop condition still allows. -/
def retryFrom (attempts : Nat → ArunOutcome) : Nat → Nat → RetryOutcome
  | _, 0 => ⟨none, true, 0, []⟩
  | k, remaining + 1 =>
    match single_fetch (attempts k) with
    | .value v => ⟨v, false, 1, []⟩
    | .fetchError =>
      if remaining = 0 then ⟨none, true, 1, []⟩
      else
        let rest := retryFrom attempts (k + 1) remaining
        ⟨rest.result, rest.raised, rest.attemptsMade + 1, retryWait k :: rest.waits⟩

/-- http_client.py `_fetch_with_retry`: the ladder starts at attempt 1
with `MAX_RETRIES` attempts allowed. -/
def fetch_with_retry (attempts : Nat → ArunOutcome) : RetryOutcome :=
  retryFrom attempts 1 Config.MAX_RETRIES

/-- http_client.py lines 161-191: `ScraperClient.fetch`.  The rate-limit
sleep and semaphore do not affect the returned value; `RetryError` and
`FetchError` escaping the ladder are caught and turned into `None`. -/
def ScraperClient.fetch (attempts : Nat → ArunOutcome) : Option String :=
  let o := fetch_with_retry attempts
  if o.raised then none else o.result

/-! ## fetch_profiles.py: two-phase bulk fetch -/

/-- Outcome of one httpx profile request, as classified by
`_httpx_fetch_one`: an exception or a response with status code, body
and headers. -/
inductive HttpxOutcome where
  | exc
  | res (status : Nat) (text : String) (headers : List (String × String))
deriving DecidableEq

/-- fetch_profiles.py lines 37-86: `_httpx_fetch_one`, reduced to the
status string it reports: exceptions and 4xx/5xx (404 included) are
"failed", a Cloudflare challenge response is "cf_blocked", anything
else writes the html and is "success". -/
def httpx_fetch_one_status : HttpxOutcome → String
  | .exc => "failed"
  | .res status text headers =>
    if status = 404 then "failed"
    else if 400 ≤ status then "failed"
    else if is_cloudflare_challenge_response text (some headers) then "cf_blocked"
    else "success"

/-- fetch_profiles.py lines 89-147: `_httpx_sweep`.  Runs the fast path
over the whole batch (task order is the `to_fetch` insertion order) and
splits the outcomes into `statuses` (success or failed) and
`cf_blocked` (uuid to record, needing browser fallback). -/
def httpx_sweep (to_fetch : List (String × RecPayload))
    (oracle : String → HttpxOutcome) :
    List (String × String) × List (String × RecPayload) :=
  to_fetch.foldl
    (fun acc e =>
      let status := httpx_fetch_one_status (oracle e.1)
      if status = "cf_blocked" then (acc.1, acc.2 ++ [e])
      else (acc.1 ++ [(e.1, status)], acc.2))
    ([], [])

/-- fetch_profiles.py line 188 and line 305: phase 2 splits the browser
targets into batches of `max BATCH_SIZE (browsers * 3 * 5)`. -/
def chunksAux (n : Nat) : Nat → List (String × RecPayload) → List (List (String × RecPayload))
  | 0, _ => []
  | _, [] => []
  | fuel + 1, l => l.take n :: chunksAux n fuel (l.drop n)

def chunks (n : Nat) (l : List (String × RecPayload)) : List (List (String × RecPayload)) :=
  chunksAux n l.length l

/-- An event of the bulk run trace: a fast-path (httpx) request or a
slow-path (browser) request for a UUID. -/
inductive BulkEvent where
  | fast (uuid : String)
  | slow (uuid : String)
deriving Repr, DecidableEq

/-- fetch_profiles.py lines 272-327 with `no_httpx = False`: Phase 1 runs
the httpx sweep over the entire `to_fetch` batch, then Phase 2 runs the
browser fallback over exactly the cf-blocked subset, in batches.
Returns the ordered request trace and the phase-2 target list. -/
def fetchProfilesBulk (to_fetch : List (String × RecPayload))
    (oracle : String → HttpxOutcome) (browsers : Nat) :
    List BulkEvent × List (String × RecPayload) :=
  let sweep := httpx_sweep to_fetch oracle
  let browser_targets := sweep.2
  let batch_size := max 100 (browsers * 3 * 5)
  let phase2 := (chunks batch_size browser_targets).foldl
    (fun acc batch => acc ++ batch.map (fun e => BulkEvent.slow e.1)) []
  (to_fetch.map (fun e => BulkEvent.fast e.1) ++ phase2, browser_targets)

/-! ## crawl_listings.py: per-page two-tier fetch block -/

/-- crawl_listings.py lines 83-115: `_httpx_fetch_listing_page`.
Returns the pair `(html or None, status)` with status one of
"success", "cf_blocked", "failed". -/
def httpx_fetch_listing_page : HttpxOutcome → Option String × String
  | .exc => (none, "failed")
  | .res status text headers =>
    if status = 404 then (none, "failed")
    else if 400 ≤ status then (none, "failed")
    else if is_cloudflare_challenge_response text (some headers) then (none, "cf_blocked")
    else (some text, "success")

/-- crawl_listings.py lines 156-180: the per-page fetch block of
`_crawl_one_pa`.  Tries httpx once (unless disabled or absent), then
falls back to the browser exactly when `html` is still `None` and a
browser client exists.  Returns the html used by the rest of the loop
body together with the number of fast-path and slow-path invocations
made for this URL. -/
def fetchPageTwoTier (no_httpx : Bool) (hasHttpx : Bool)
    (fastOutcome : HttpxOutcome) (browser : Option (Option String)) :
    Option String × Nat × Nat :=
  let fastStep :=
    if no_httpx = false ∧ hasHttpx = true then
      let r := httpx_fetch_listing_page fastOutcome
      (if r.2 = "success" then r.1 else none, 1)
    else (none, 0)
  if fastStep.1.isNone then
    match browser with
    | some slowResult => (slowResult, fastStep.2, 1)
    | none => (none, fastStep.2, 0)
  else (fastStep.1, fastStep.2, 0)

/-! ## Predicates and concrete instances used by the theorem statements -/

/-- Attempt number `k` of the ladder raised `FetchError`. -/
def attemptErr (attempts : Nat → ArunOutcome) (k : Nat) : Prop :=
  single_fetch (attempts k) = .fetchError

/-- The resource was confirmed absent: the first attempt that returned at
all (every earlier one raised `FetchError`) returned the 404 `None`. -/
def confirmedAbsent (attempts : Nat → ArunOutcome) : Prop :=
  ∃ k, 1 ≤ k ∧ k ≤ Config.MAX_RETRIES ∧
    (∀ j, 1 ≤ j → j < k → attemptErr attempts j) ∧
    single_fetch (attempts k) = .value none

/-- Every one of the `MAX_RETRIES` allowed attempts raised `FetchError`. -/
def retriesExhausted (attempts : Nat → ArunOutcome) : Prop :=
  ∀ k, 1 ≤ k → k ≤ Config.MAX_RETRIES → attemptErr attempts k

/-- The first attempt that returned produced the body `b`. -/
def returnsBody (attempts : Nat → ArunOutcome) (b : String) : Prop :=
  ∃ k, 1 ≤ k ∧ k ≤ Config.MAX_RETRIES ∧
    (∀ j, 1 ≤ j → j < k → attemptErr attempts j) ∧
    single_fetch (attempts k) = .value (some b)

/-- Slugs of the checkpoint files whose record set contains `u`. -/
def slugsContaining (u : String) (files : List (String × RecMap)) : List String :=
  (files.filter (fun f => rmHasKey f.2 u)).map Prod.fst

/-- An empty data directory (fresh run). -/
def emptyDir : DataDir := ⟨[], none, false⟩

/-- Concrete page oracle for the resume counterexample: page 1 of every
practice area has content, page 2 onward does not exist. -/
def oracleC1 : String → Nat → Option String :=
  fun _ p => if p = 1 then some "H1" else none

/-- Concrete parser for the resume counterexample: the page "H1" holds
one attorney card. -/
def parseC1 : String → List Card :=
  fun h => if h = "H1" then [⟨"u1", "r1"⟩] else []

/-- Disk holding a previously written, intact `fetch_status.json`. -/
def diskC5 : Disk :=
  fun q => if q = "fetch_status.json" then .whole "old" else .absent

/-- A Cloudflare challenge response as served to the fast path. -/
def cfChallengeResp : HttpxOutcome :=
  .res 200 "<title>Just a moment...</title>" []

/-- Concrete page oracle for the global-cap witness: page 1 of every
practice area exists, page 2 onward does not. -/
def oracleC7 : String → Nat → Option String :=
  fun s p => if p = 1 then some s else none

/-- Concrete parser for the global-cap witness: every page yields two
cards whose UUIDs embed the page text. -/
def parseC7 : String → List Card :=
  fun h => [⟨h ++ "x", "r"⟩, ⟨h ++ "y", "r"⟩]

/-! # Theorems

Helper lemmas first, then one theorem per verified claim (with witness
or counterexample theorems where required). -/

theorem charsLe_total (a b : List Char) : charsLe a b = true ∨ charsLe b a = true := by
  induction a generalizing b with
  | nil => left; rfl
  | cons x xs ih =>
    cases b with
    | nil => right; rfl
    | cons y ys =>
      rcases lt_trichotomy x y with h | h | h
      · left; simp [charsLe, h]
      · subst h
        rcases ih ys with h2 | h2
        · left; simp [charsLe, lt_irrefl, h2]
        · right; simp [charsLe, lt_irrefl, h2]
      · right; simp [charsLe, h]

theorem charsLe_trans {a b c : List Char} (h1 : charsLe a b = true)
    (h2 : charsLe b c = true) : charsLe a c = true := by
  induction a generalizing b c with
  | nil => rfl
  | cons x xs ih =>
    cases b with
    | nil => simp [charsLe] at h1
    | cons y ys =>
      cases c with
      | nil => simp [charsLe] at h2
      | cons z zs =>
        rcases lt_trichotomy x y with hxy | hxy | hxy
        · rcases lt_trichotomy y z with hyz | hyz | hyz
          · simp [charsLe, lt_trans hxy hyz]
          · subst hyz; simp [charsLe, hxy]
          · simp [charsLe, hyz, lt_asymm hyz] at h2
        · subst hxy
          rcases lt_trichotomy x z with hyz | hyz | hyz
          · simp [charsLe, hyz]
          · subst hyz
            simp [charsLe, lt_irrefl] at h1 h2 ⊢
            exact ih h1 h2
          · simp [charsLe, hyz, lt_asymm hyz] at h2
        · simp [charsLe, hxy, lt_asymm hxy] at h1

theorem charsLe_antisymm {a b : List Char} (h1 : charsLe a b = true)
    (h2 : charsLe b a = true) : a = b := by
  induction a generalizing b with
  | nil =>
    cases b with
    | nil => rfl
    | cons y ys => simp [charsLe] at h2
  | cons x xs ih =>
    cases b with
    | nil => simp [charsLe] at h1
    | cons y ys =>
      rcases lt_trichotomy x y with hxy | hxy | hxy
      · simp [charsLe, hxy, lt_asymm hxy] at h2
      · subst hxy
        simp [charsLe, lt_irrefl] at h1 h2
        exact congrArg (x :: ·) (ih h1 h2)
      · simp [charsLe, hxy, lt_asymm hxy] at h1

theorem slugLe_antisymm {a b : String} (h1 : slugLe a b = true)
    (h2 : slugLe b a = true) : a = b := by
  cases a with
  | mk da =>
    cases b with
    | mk db => exact congrArg String.mk (charsLe_antisymm h1 h2)

/-! ## Claim C2: challenge on the fast path falls back to a single
slow-path call -/

/-- C2.  For every URL whose fast-path (httpx) fetch returns a
Cloudflare-challenge response ("cf_blocked"), the per-page fetch block
of `_crawl_one_pa` performs exactly one fast-path request (no fast-path
retry) and invokes the slow-path (browser) backend exactly once, and
the outcome for that URL is exactly what the slow path produced
(success, or giving up when the browser also fails). -/
theorem challenge_single_slow_fallback (fastOutcome : HttpxOutcome)
    (slowResult : Option String)
    (h : (httpx_fetch_listing_page fastOutcome).2 = "cf_blocked") :
    fetchPageTwoTier false true fastOutcome (some slowResult) = (slowResult, 1, 1) := by
  have h1 : (if (httpx_fetch_listing_page fastOutcome).2 = "success"
      then (httpx_fetch_listing_page fastOutcome).1 else none) = none := by
    rw [h]
    simp
  simp only [fetchPageTwoTier, h1]
  simp

/-- Witness for C2 at a concrete Cloudflare challenge page. -/
theorem challenge_single_slow_fallback_witness :
    (httpx_fetch_listing_page cfChallengeResp).2 = "cf_blocked" ∧
    fetchPageTwoTier false true cfChallengeResp (some (some "real page")) =
      (some "real page", 1, 1) :=
  ⟨by decide, challenge_single_slow_fallback cfChallengeResp (some "real page") (by decide)⟩

/-! ## Claim C5: atomic-write guarantee (corrected: fetch_status.json is
written in place) -/

/-- Counterexample to C5 as stated.  `_write_status` writes
`fetch_status.json` in place (its operation list holds no temp write
and no rename), and a crash in the middle of that write leaves the
artifact path truncated even though an intact prior version existed —
the claimed temp-then-rename discipline does not hold for this
artifact. -/
theorem write_status_crash_corrupts :
    diskC5 "fetch_status.json" = FileState.whole "old" ∧
    writeStatusOps "fetch_status.json" "newdata" =
      [FsOp.write "fetch_status.json" "newdata"] ∧
    crashDisk diskC5 (writeStatusOps "fetch_status.json" "newdata") 0 true 3
      "fetch_status.json" = FileState.truncated "newdata" 3 ∧
    (crashDisk diskC5 (writeStatusOps "fetch_status.json" "newdata") 0 true 3
      "fetch_status.json").readable = false := by
  refine ⟨rfl, rfl, by decide, by decide⟩

/-- C5 as amended.  Every artifact written through `_atomic_write`
(per-unit checkpoint files and the final listings.json) is crash-safe:
whatever the crash point, and even if the interrupted operation was
torn mid-way, the artifact path holds either its prior state or the
complete new content — never a truncated file.  (fetch_status.json is
excluded: `_write_status` writes it in place, see the counterexample.) -/
theorem atomic_write_crash_safe (path data : String) (d : Disk) (i : Nat)
    (torn : Bool) (n : Nat) :
    crashDisk d (atomicWriteOps path data) i torn n path = d path ∨
    crashDisk d (atomicWriteOps path data) i torn n path = FileState.whole data := by
  have hne : path ≠ path ++ ".tmp" := by
    intro h
    have hl := congrArg String.length h
    rw [String.length_append] at hl
    have h4 : (".tmp" : String).length = 4 := rfl
    omega
  match i with
  | 0 =>
    cases torn with
    | false => left; simp [crashDisk, runOps, atomicWriteOps]
    | true =>
      left
      simp [crashDisk, runOps, atomicWriteOps, tearOp, Disk.set, hne]
  | 1 =>
    cases torn with
    | false =>
      left
      simp [crashDisk, runOps, atomicWriteOps, applyOp, Disk.set, hne]
    | true =>
      left
      simp [crashDisk, runOps, atomicWriteOps, applyOp, tearOp, Disk.set, hne]
  | (m + 2) =>
    have htake : (atomicWriteOps path data).take (m + 2) = atomicWriteOps path data := by
      simp [atomicWriteOps]
    have hget : (atomicWriteOps path data).get? (m + 2) = none := by
      simp [atomicWriteOps]
    right
    cases torn with
    | false =>
      simp [crashDisk, htake, runOps, atomicWriteOps, applyOp, Disk.set, hne]
    | true =>
      simp [crashDisk, htake, hget, runOps, atomicWriteOps, applyOp, Disk.set, hne]

/-! ## Claim C8: pagination terminates -/

/-- Structure of the page-loop fetch log: at most `fuel` pages are
fetched, the fetched pages are consecutive starting at `page`, and
every fetched page except possibly the last contributed at least one
new unique record. -/
theorem crawlFrom_log_spec (f : Nat → Option String) (p : String → List Card) :
    ∀ (fuel page : Nat) (st : CrawlState) (recs : RecMap),
      ((crawlFrom f p fuel page st recs).2.2).length ≤ fuel ∧
      ((crawlFrom f p fuel page st recs).2.2).map Prod.fst =
        List.range' page ((crawlFrom f p fuel page st recs).2.2).length ∧
      (∀ e ∈ ((crawlFrom f p fuel page st recs).2.2).dropLast, 0 < e.2) := by
  intro fuel
  induction fuel with
  | zero =>
    intro page st recs
    simp [crawlFrom]
  | succ fuel ih =>
    intro page st recs
    by_cases hstop : st.should_stop = true
    · simp [crawlFrom, hstop]
    · cases hf : f page with
      | none =>
        simp [crawlFrom, hstop, hf]
      | some html =>
        by_cases hempty : (p html).isEmpty = true
        · simp [crawlFrom, hstop, hf, hempty]
        · by_cases hadd : (addCards recs (p html)).2 = 0
          · simp [crawlFrom, hstop, hf, hempty, hadd]
          · by_cases hcap : (st.add_uuids (rmKeys (addCards recs (p html)).1)).2 = true
            · simp only [crawlFrom, hstop, hf, hempty, hadd, hcap]
              simp
            · obtain ⟨ih1, ih2, ih3⟩ :=
                ih (page + 1) (st.add_uuids (rmKeys (addCards recs (p html)).1)).1
                  (addCards recs (p html)).1
              simp only [crawlFrom, hstop, hf, hempty, hadd, hcap]
              simp only [Bool.false_eq_true, if_false, if_neg hadd, if_neg hcap,
                List.length_cons, List.map_cons]
              refine ⟨Nat.succ_le_succ ih1, ?_, ?_⟩
              · rw [List.range'_succ page _ 1, ih2]
              · cases hrest :
                  (crawlFrom f p fuel (page + 1)
                    (st.add_uuids (rmKeys (addCards recs (p html)).1)).1
                    (addCards recs (p html)).1).2.2 with
                | nil =>
                  intro e he
                  simp at he
                | cons x xs =>
                  intro e he
                  rw [show ((page, (addCards recs (p html)).2) :: x :: xs).dropLast
                        = (page, (addCards recs (p html)).2) :: (x :: xs).dropLast from rfl] at he
                  rcases List.mem_cons.mp he with he1 | he2
                  · subst he1
                    exact Nat.pos_of_ne_zero hadd
                  · have := ih3 e
                    rw [hrest] at this
                    exact this he2

/-- C8.  The page loop of `_crawl_one_pa` fetches at most
`MAX_PAGES_PER_CATEGORY` pages; the fetched pages are exactly
`1, 2, ..., len`; and every fetched page other than the last
contributed at least one new unique record — so a page contributing
zero new records (and likewise a failed or empty page) is always the
last page fetched: the loop stops after it and never fetches the next
page. -/
theorem pagination_terminates (f : Nat → Option String) (p : String → List Card)
    (st : CrawlState) :
    ((crawlOnePa f p st).2.2).length ≤ Config.MAX_PAGES_PER_CATEGORY ∧
    ((crawlOnePa f p st).2.2).map Prod.fst =
      List.range' 1 ((crawlOnePa f p st).2.2).length ∧
    (∀ e ∈ ((crawlOnePa f p st).2.2).dropLast, 0 < e.2) :=
  crawlFrom_log_spec f p Config.MAX_PAGES_PER_CATEGORY 1 st []

/-! ## Claim C9: bulk two-phase escalation -/

theorem httpx_sweep_cf_aux (oracle : String → HttpxOutcome) :
    ∀ (l : List (String × RecPayload))
      (acc : List (String × String) × List (String × RecPayload)),
      (l.foldl
        (fun acc e =>
          let status := httpx_fetch_one_status (oracle e.1)
          if status = "cf_blocked" then (acc.1, acc.2 ++ [e])
          else (acc.1 ++ [(e.1, status)], acc.2)) acc).2
      = acc.2 ++ l.filter (fun e => httpx_fetch_one_status (oracle e.1) == "cf_blocked") := by
  intro l
  induction l with
  | nil =>
    intro acc
    simp
  | cons e rest ih =>
    intro acc
    by_cases h : httpx_fetch_one_status (oracle e.1) = "cf_blocked"
    · simp [h, ih]
    · simp [h, ih]

theorem chunksAux_join (n : Nat) (hn : 1 ≤ n) :
    ∀ (fuel : Nat) (l : List (String × RecPayload)), l.length ≤ fuel →
      (chunksAux n fuel l).flatten = l := by
  intro fuel
  induction fuel with
  | zero =>
    intro l hl
    rw [List.eq_nil_of_length_eq_zero (Nat.le_zero.mp hl)]
    rfl
  | succ fuel ih =>
    intro l hl
    cases l with
    | nil => rfl
    | cons x xs =>
      rw [show chunksAux n (fuel + 1) (x :: xs)
            = (x :: xs).take n :: chunksAux n fuel ((x :: xs).drop n) from rfl]
      rw [List.flatten_cons]
      rw [ih ((x :: xs).drop n)
        (by simp only [List.length_drop, List.length_cons] at hl ⊢; omega)]
      exact List.take_append_drop n (x :: xs)

theorem foldl_append_map_slow :
    ∀ (L : List (List (String × RecPayload))) (init : List BulkEvent),
      L.foldl (fun acc batch => acc ++ batch.map (fun e => BulkEvent.slow e.1)) init
        = init ++ L.flatten.map (fun e => BulkEvent.slow e.1) := by
  intro L
  induction L with
  | nil =>
    intro init
    simp
  | cons b rest ih =>
    intro init
    simp [ih]

/-- C9.  In the bulk profile-fetch run with the fast path enabled, the
slow-path (browser) phase processes exactly the subset of the batch
that the httpx sweep classified as "cf_blocked" (URLs that failed for
other reasons are not retried by the browser), and the request trace is
the full fast-path sweep over the entire batch followed — only after
the sweep completes — by the slow-path requests over that subset. -/
theorem bulk_two_phase (to_fetch : List (String × RecPayload))
    (oracle : String → HttpxOutcome) (browsers : Nat) :
    (fetchProfilesBulk to_fetch oracle browsers).2
      = to_fetch.filter (fun e => httpx_fetch_one_status (oracle e.1) == "cf_blocked") ∧
    (fetchProfilesBulk to_fetch oracle browsers).1
      = to_fetch.map (fun e => BulkEvent.fast e.1)
        ++ ((fetchProfilesBulk to_fetch oracle browsers).2).map
             (fun e => BulkEvent.slow e.1) := by
  have hsweep : (httpx_sweep to_fetch oracle).2
      = to_fetch.filter (fun e => httpx_fetch_one_status (oracle e.1) == "cf_blocked") := by
    rw [httpx_sweep]
    exact httpx_sweep_cf_aux oracle to_fetch ([], [])
  have hn : 1 ≤ max 100 (browsers * 3 * 5) := le_trans (by norm_num) (le_max_left _ _)
  constructor
  · exact hsweep
  · show to_fetch.map (fun e => BulkEvent.fast e.1)
        ++ (chunks (max 100 (browsers * 3 * 5)) (httpx_sweep to_fetch oracle).2).foldl
             (fun acc batch => acc ++ batch.map (fun e => BulkEvent.slow e.1)) []
      = _
    rw [foldl_append_map_slow]
    rw [chunks, chunksAux_join _ hn _ _ (le_refl _)]
    rfl

/-! ## Claim C1: resume idempotence (corrected: a completed run deletes
its checkpoints, so a re-run after completion fetches again) -/

/-- Counterexample to C1 as stated.  Run the listings crawl to
completion on a one-practice-area input from an empty data directory,
then re-run it with the same inputs and `force = false`: the second run
performs fetches (its fetch log is nonempty), because the first run
deleted every per-PA checkpoint file after its final merge, leaving
nothing for the resume partition to skip. -/
theorem rerun_after_completion_fetches :
    (crawlListingsRun oracleC1 parseC1 ["a"] false none
        (crawlListingsRun oracleC1 parseC1 ["a"] false none emptyDir).1).2
      = [("a", 1, 1), ("a", 2, 0)] ∧
    (crawlListingsRun oracleC1 parseC1 ["a"] false none
        (crawlListingsRun oracleC1 parseC1 ["a"] false none emptyDir).1).2 ≠ [] := by
  refine ⟨by decide, by decide⟩

/-- C1 as amended.  Resume idempotence holds exactly while the per-unit
checkpoint files are still on disk: if every practice area of the input
already has a checkpoint file (for instance, a prior run completed
every unit but was interrupted before the merge phase's cleanup), then
re-running with `force = false` performs zero fetches and the final
listings.json it writes is the deterministic merge of those checkpoint
files.  After a run that reaches the final merge, the checkpoints are
deleted, so a later re-run fetches again (see the counterexample). -/
theorem resume_with_checkpoints_zero_fetches
    (oracle : String → Nat → Option String) (parse : String → List Card)
    (pas : List String) (max_results : Option Nat) (fs : DataDir)
    (h : ∀ pa ∈ pas, fs.hasPa pa = true) :
    (crawlListingsRun oracle parse pas false max_results fs).2 = [] ∧
    (crawlListingsRun oracle parse pas false max_results fs).1.listings =
      some (merge_pa_files fs.paFiles max_results) := by
  have hrem : remainingUnits pas fs = [] := by
    rw [remainingUnits, List.filter_eq_nil_iff]
    intro pa hpa
    simp [h pa hpa]
  rw [crawlListingsRun]
  simp only [if_neg (by simp : ¬ false = true)]
  rw [hrem]
  exact ⟨rfl, rfl⟩

/-- Witness for the amended C1 at a concrete checkpointed directory. -/
theorem resume_with_checkpoints_zero_fetches_witness :
    (∀ pa ∈ ["a"], (DataDir.mk [("a", [("u1", "r1")])] none false).hasPa pa = true) ∧
    (crawlListingsRun oracleC1 parseC1 ["a"] false none
        (DataDir.mk [("a", [("u1", "r1")])] none false)).2 = [] ∧
    (crawlListingsRun oracleC1 parseC1 ["a"] false none
        (DataDir.mk [("a", [("u1", "r1")])] none false)).1.listings =
      some (merge_pa_files [("a", [("u1", "r1")])] none) :=
  ⟨by decide,
   (resume_with_checkpoints_zero_fetches oracleC1 parseC1 ["a"] none
      (DataDir.mk [("a", [("u1", "r1")])] none false) (by decide)).1,
   (resume_with_checkpoints_zero_fetches oracleC1 parseC1 ["a"] none
      (DataDir.mk [("a", [("u1", "r1")])] none false) (by decide)).2⟩

/-! ## Claims C4 and C6: the ScraperClient fetch contract and the
retry backoff schedule -/

theorem range_map_shift (g : Nat → ℚ) (k m : Nat) :
    (List.range (m + 1)).map (fun i => g (k + i))
      = g k :: (List.range m).map (fun i => g (k + 1 + i)) := by
  rw [List.range_succ_eq_map]
  simp only [List.map_cons, List.map_map, Nat.add_zero]
  congr 1
  apply List.map_congr_left
  intro a _
  simp only [Function.comp_apply, Nat.succ_eq_add_one]
  congr 1
  omega

theorem retryFrom_exhausted (attempts : Nat → ArunOutcome) :
    ∀ (r k : Nat), (∀ j, k ≤ j → j < k + r → attemptErr attempts j) →
      retryFrom attempts k r =
        ⟨none, true, r, (List.range (r - 1)).map (fun i => retryWait (k + i))⟩ := by
  intro r
  induction r with
  | zero =>
    intro k _
    rfl
  | succ r ih =>
    intro k h
    have hk : single_fetch (attempts k) = .fetchError := h k (le_refl k) (by omega)
    by_cases hr : r = 0
    · subst hr
      simp [retryFrom, hk]
    · simp only [retryFrom, hk]
      rw [if_neg hr]
      rw [ih (k + 1) (fun j h1 h2 => h j (by omega) (by omega))]
      simp only [RetryOutcome.mk.injEq, true_and]
      rw [show r + 1 - 1 = (r - 1) + 1 from by omega, range_map_shift]

theorem retryFrom_value (attempts : Nat → ArunOutcome) :
    ∀ (r k j : Nat) (v : Option String), k ≤ j → j < k + r →
      (∀ i, k ≤ i → i < j → attemptErr attempts i) →
      single_fetch (attempts j) = .value v →
      retryFrom attempts k r =
        ⟨v, false, j - k + 1, (List.range (j - k)).map (fun i => retryWait (k + i))⟩ := by
  intro r
  induction r with
  | zero =>
    intro k j v h1 h2 _ _
    omega
  | succ r ih =>
    intro k j v h1 h2 hbefore hval
    by_cases hjk : j = k
    · subst hjk
      simp [retryFrom, hval]
    · have hk : single_fetch (attempts k) = .fetchError := hbefore k (le_refl _) (by omega)
      have hr : r ≠ 0 := by omega
      simp only [retryFrom, hk]
      rw [if_neg hr]
      rw [ih (k + 1) j v (by omega) (by omega)
        (fun i hi1 hi2 => hbefore i (by omega) hi2) hval]
      simp only [RetryOutcome.mk.injEq, true_and]
      refine ⟨by omega, ?_⟩
      rw [show j - k = (j - (k + 1)) + 1 from by omega, range_map_shift]

theorem exists_first_value (attempts : Nat → ArunOutcome) :
    ∀ (r k : Nat),
      (∀ j, k ≤ j → j < k + r → attemptErr attempts j) ∨
      (∃ j v, k ≤ j ∧ j < k + r ∧ (∀ i, k ≤ i → i < j → attemptErr attempts i) ∧
        single_fetch (attempts j) = .value v) := by
  intro r
  induction r with
  | zero =>
    intro k
    left
    intro j h1 h2
    omega
  | succ r ih =>
    intro k
    cases hsf : single_fetch (attempts k) with
    | value v =>
      right
      exact ⟨k, v, le_refl _, by omega, fun i hi1 hi2 => absurd hi2 (by omega), hsf⟩
    | fetchError =>
      rcases ih (k + 1) with h | ⟨j, v, h1, h2, h3, h4⟩
      · left
        intro j hj1 hj2
        by_cases hjk : j = k
        · subst hjk
          exact hsf
        · exact h j (by omega) (by omega)
      · right
        refine ⟨j, v, by omega, by omega, ?_, h4⟩
        intro i hi1 hi2
        by_cases hik : i = k
        · subst hik
          exact hsf
        · exact h3 i (by omega) hi2

theorem first_value_unique (attempts : Nat → ArunOutcome) {j k : Nat}
    {v w : Option String}
    (h3 : ∀ i, 1 ≤ i → i < j → attemptErr attempts i)
    (h4 : single_fetch (attempts j) = .value v)
    (g3 : ∀ i, 1 ≤ i → i < k → attemptErr attempts i)
    (g4 : single_fetch (attempts k) = .value w)
    (hj : 1 ≤ j) (hk : 1 ≤ k) : j = k := by
  by_contra hne
  rcases Nat.lt_or_ge j k with h | h
  · have herr := g3 j hj h
    simp [attemptErr, h4] at herr
  · have herr := h3 k hk (by omega)
    simp [attemptErr, g4] at herr

/-- C4.  `ScraperClient.fetch` never raises (it is a total function of
the attempt outcomes; `RetryError`/`FetchError` are caught): it returns
`none` exactly when the resource was confirmed absent (the first
attempt that returned at all was a 404) or every allowed attempt
failed; it returns a body exactly when the first attempt that returned
produced that body; and a 404 ends the ladder immediately — when
attempt `k` is the 404, exactly `k` attempts are made, so the 404
itself is never retried. -/
theorem fetch_contract (attempts : Nat → ArunOutcome) :
    (ScraperClient.fetch attempts = none ↔
      confirmedAbsent attempts ∨ retriesExhausted attempts) ∧
    (∀ b, ScraperClient.fetch attempts = some b ↔ returnsBody attempts b) ∧
    (∀ k, 1 ≤ k → k ≤ Config.MAX_RETRIES →
      (∀ j, 1 ≤ j → j < k → attemptErr attempts j) →
      single_fetch (attempts k) = AttemptResult.value none →
      (fetch_with_retry attempts).attemptsMade = k) := by
  rcases exists_first_value attempts Config.MAX_RETRIES 1 with hall | ⟨j, v, h1, h2, h3, h4⟩
  · have heq := retryFrom_exhausted attempts Config.MAX_RETRIES 1 hall
    have hfetch : ScraperClient.fetch attempts = none := by
      rw [ScraperClient.fetch, fetch_with_retry, heq]
      rfl
    refine ⟨⟨fun _ => Or.inr (fun k hk1 hk2 => hall k hk1 (by omega)), fun _ => hfetch⟩,
      ?_, ?_⟩
    · intro b
      constructor
      · intro hb
        rw [hfetch] at hb
        exact Option.noConfusion hb
      · rintro ⟨k, hk1, hk2, _, hk4⟩
        have herr := hall k hk1 (by omega)
        simp [attemptErr, hk4] at herr
    · intro k hk1 hk2 _ hk4
      have herr := hall k hk1 (by omega)
      simp [attemptErr, hk4] at herr
  · have heq := retryFrom_value attempts Config.MAX_RETRIES 1 j v h1 h2
      (fun i hi1 hi2 => h3 i hi1 hi2) h4
    have hfetch : ScraperClient.fetch attempts = v := by
      rw [ScraperClient.fetch, fetch_with_retry, heq]
      rfl
    refine ⟨⟨?_, ?_⟩, ?_, ?_⟩
    · intro hnone
      rw [hfetch] at hnone
      subst hnone
      exact Or.inl ⟨j, h1, by omega, h3, h4⟩
    · rintro (⟨k, hk1, hk2, hk3, hk4⟩ | hex)
      · have hjk : j = k := first_value_unique attempts h3 h4 hk3 hk4 h1 hk1
        subst hjk
        rw [h4] at hk4
        have hv : v = none := AttemptResult.value.inj hk4
        rw [hfetch, hv]
      · have herr := hex j h1 (by omega)
        simp [attemptErr, h4] at herr
    · intro b
      constructor
      · intro hb
        rw [hfetch] at hb
        subst hb
        exact ⟨j, h1, by omega, h3, h4⟩
      · rintro ⟨k, hk1, hk2, hk3, hk4⟩
        have hjk : j = k := first_value_unique attempts h3 h4 hk3 hk4 h1 hk1
        subst hjk
        rw [h4] at hk4
        have hv : v = some b := AttemptResult.value.inj hk4
        rw [hfetch, hv]
    · intro k hk1 hk2 hk3 hk4
      have hjk : j = k := first_value_unique attempts h3 h4 hk3 hk4 h1 hk1
      subst hjk
      rw [fetch_with_retry, heq]
      simp only []
      omega

/-- Witness for C4: a first-attempt 404 makes exactly one attempt and
`fetch` returns `none`. -/
theorem fetch_contract_witness :
    (fetch_with_retry (fun _ => ArunOutcome.res 404 true "x" none)).attemptsMade = 1 ∧
    ScraperClient.fetch (fun _ => ArunOutcome.res 404 true "x" none) = none :=
  ⟨(fetch_contract (fun _ => ArunOutcome.res 404 true "x" none)).2.2 1 (by decide)
      (by decide) (fun j hj1 hj2 => absurd hj2 (by omega)) (by decide),
   ((fetch_contract (fun _ => ArunOutcome.res 404 true "x" none)).1).mpr
      (Or.inl ⟨1, by decide, by decide, fun j hj1 hj2 => absurd hj2 (by omega), by decide⟩)⟩

theorem retryFrom_attemptsMade_le (attempts : Nat → ArunOutcome) :
    ∀ (r k : Nat), (retryFrom attempts k r).attemptsMade ≤ r := by
  intro r
  induction r with
  | zero =>
    intro k
    exact Nat.le_refl 0
  | succ r ih =>
    intro k
    cases hsf : single_fetch (attempts k) with
    | value v => simp [retryFrom, hsf]
    | fetchError =>
      by_cases hr : r = 0
      · subst hr
        simp [retryFrom, hsf]
      · simp only [retryFrom, hsf]
        rw [if_neg hr]
        exact Nat.succ_le_succ (ih (k + 1))

theorem retryFrom_waits_formula (attempts : Nat → ArunOutcome) :
    ∀ (r k : Nat),
      (retryFrom attempts k r).waits =
        (List.range ((retryFrom attempts k r).attemptsMade - 1)).map
          (fun i => retryWait (k + i)) := by
  intro r
  induction r with
  | zero =>
    intro k
    rfl
  | succ r ih =>
    intro k
    cases hsf : single_fetch (attempts k) with
    | value v => simp [retryFrom, hsf]
    | fetchError =>
      by_cases hr : r = 0
      · subst hr
        simp [retryFrom, hsf]
      · simp only [retryFrom, hsf]
        rw [if_neg hr]
        simp only []
        have hpos : 1 ≤ (retryFrom attempts (k + 1) r).attemptsMade := by
          cases hv : r with
          | zero => exact absurd hv hr
          | succ m =>
            cases hsf2 : single_fetch (attempts (k + 1)) with
            | value v => simp [retryFrom, hsf2]
            | fetchError =>
              by_cases hm : m = 0
              · subst hm
                simp [retryFrom, hsf2]
              · simp only [retryFrom, hsf2]
                rw [if_neg hm]
                exact Nat.le_add_left 1 _
        rw [ih (k + 1)]
        rw [show (retryFrom attempts (k + 1) r).attemptsMade + 1 - 1
              = ((retryFrom attempts (k + 1) r).attemptsMade - 1) + 1 from by omega]
        rw [range_map_shift]

theorem retryWait_eval : retryWait 1 = Config.RETRY_BACKOFF_BASE * 2 ^ 0 ∧
    retryWait 2 = Config.RETRY_BACKOFF_BASE * 2 ^ 1 := by
  constructor
  · rw [retryWait, tenacityWaitExp]
    norm_num [Config.RETRY_BACKOFF_BASE, Config.MAX_RETRIES, min_def, max_def]
  · rw [retryWait, tenacityWaitExp]
    norm_num [Config.RETRY_BACKOFF_BASE, Config.MAX_RETRIES, min_def, max_def]

/-- C6.  The retry ladder makes at most `MAX_RETRIES` (3) attempts; the
sleep that follows failed attempt `n` (1-indexed) is exactly
`RETRY_BACKOFF_BASE * 2 ^ (n - 1)` — the list of sleeps, in order, is
`[b * 2 ^ 0, b * 2 ^ 1, ...]` with one entry per retry performed (the
`wait_exponential` clamp to `[b, b ^ MAX_RETRIES]` never bites at the
default configuration); and when every attempt fails, `fetch` returns
`none`. -/
theorem retry_backoff_schedule (attempts : Nat → ArunOutcome) :
    (fetch_with_retry attempts).attemptsMade ≤ Config.MAX_RETRIES ∧
    (fetch_with_retry attempts).waits =
      (List.range ((fetch_with_retry attempts).attemptsMade - 1)).map
        (fun n => Config.RETRY_BACKOFF_BASE * 2 ^ n) ∧
    (retriesExhausted attempts → ScraperClient.fetch attempts = none) := by
  have hle := retryFrom_attemptsMade_le attempts Config.MAX_RETRIES 1
  refine ⟨hle, ?_, ?_⟩
  · rw [fetch_with_retry, retryFrom_waits_formula attempts Config.MAX_RETRIES 1]
    apply List.map_congr_left
    intro i hi
    have hilt : i < (retryFrom attempts 1 Config.MAX_RETRIES).attemptsMade - 1 :=
      List.mem_range.mp hi
    have : i = 0 ∨ i = 1 := by
      have h3 : Config.MAX_RETRIES = 3 := rfl
      omega
    rcases this with h | h
    · subst h
      exact retryWait_eval.1
    · subst h
      exact retryWait_eval.2
  · intro hex
    rw [ScraperClient.fetch, fetch_with_retry,
      retryFrom_exhausted attempts Config.MAX_RETRIES 1
        (fun j hj1 hj2 => hex j hj1 (by omega))]
    rfl

/-- Witness for C6: when every attempt raises, three attempts are made,
the sleeps are `b * 2 ^ 0` and `b * 2 ^ 1` (2 s then 4 s), and `fetch`
returns `none`. -/
theorem retry_backoff_schedule_witness :
    (fetch_with_retry (fun _ => ArunOutcome.exc)).attemptsMade = Config.MAX_RETRIES ∧
    (fetch_with_retry (fun _ => ArunOutcome.exc)).waits =
      [Config.RETRY_BACKOFF_BASE * 2 ^ 0, Config.RETRY_BACKOFF_BASE * 2 ^ 1] ∧
    ScraperClient.fetch (fun _ => ArunOutcome.exc) = none := by
  have h := retry_backoff_schedule (fun _ => ArunOutcome.exc)
  have ham : (fetch_with_retry (fun _ => ArunOutcome.exc)).attemptsMade
      = Config.MAX_RETRIES := by decide
  refine ⟨ham, ?_, h.2.2 (fun k hk1 hk2 => rfl)⟩
  rw [h.2.1, ham]
  rfl

/-! ## Claim C10: zero-record units write no checkpoint and are always
re-crawled -/

theorem setPa_nonempty (fs : DataDir) (slug : String) (recs : RecMap)
    (h : ∀ f ∈ fs.paFiles, f.2 ≠ []) (hr : recs ≠ []) :
    ∀ f ∈ (fs.setPa slug recs).paFiles, f.2 ≠ [] := by
  intro f hf
  by_cases hp : fs.hasPa slug = true
  · simp only [DataDir.setPa, hp, if_true] at hf
    rcases List.mem_map.mp hf with ⟨g, hg, hgf⟩
    by_cases hgs : (g.1 == slug) = true
    · rw [if_pos hgs] at hgf
      rw [← hgf]
      exact hr
    · rw [if_neg hgs] at hgf
      rw [← hgf]
      exact h g hg
  · simp only [DataDir.setPa, hp, if_false, Bool.false_eq_true] at hf
    simp only [List.mem_append, List.mem_singleton] at hf
    rcases hf with hf | hf
    · exact h f hf
    · rw [hf]
      exact hr

theorem writePaFile_nonempty (fs : DataDir) (slug : String) (recs : RecMap)
    (h : ∀ f ∈ fs.paFiles, f.2 ≠ []) :
    ∀ f ∈ (writePaFile fs slug recs).paFiles, f.2 ≠ [] := by
  by_cases hr : recs.isEmpty = true
  · simpa [writePaFile, hr] using h
  · have hrne : recs ≠ [] := by
      intro hcon
      rw [hcon] at hr
      exact hr rfl
    simpa [writePaFile, hr] using setPa_nonempty fs slug recs h hrne

theorem runUnits_files_nonempty (oracle : String → Nat → Option String)
    (parse : String → List Card) :
    ∀ (pas : List String) (st : CrawlState) (fs : DataDir),
      (∀ f ∈ fs.paFiles, f.2 ≠ []) →
      ∀ f ∈ (runUnits oracle parse pas st fs).2.1.paFiles, f.2 ≠ [] := by
  intro pas
  induction pas with
  | nil =>
    intro st fs h
    exact h
  | cons pa rest ih =>
    intro st fs h
    exact ih _ _ (writePaFile_nonempty fs pa _ h)

/-- C10 (implicit).  A unit whose crawl collects zero records writes no
checkpoint file (the write is guarded by the records dict being
nonempty), so every checkpoint file on disk holds at least one record
(an invariant the crawl phase preserves), and a unit without a
checkpoint file is never skipped by resume: on every subsequent
non-force run it is in the remaining work list again. -/
theorem zero_record_unit_recrawled
    (oracle : String → Nat → Option String) (parse : String → List Card)
    (slug : String) (st : CrawlState) (fs : DataDir) (pas : List String) :
    ((crawlOnePa (oracle slug) parse st).2.1 = [] →
      (crawlUnit oracle parse slug st fs).2.1 = fs) ∧
    ((∀ f ∈ fs.paFiles, f.2 ≠ []) →
      ∀ f ∈ (runUnits oracle parse pas st fs).2.1.paFiles, f.2 ≠ []) ∧
    (fs.hasPa slug = false → slug ∈ pas → slug ∈ remainingUnits pas fs) := by
  refine ⟨?_, runUnits_files_nonempty oracle parse pas st fs, ?_⟩
  · intro h
    rw [crawlOnePa] at h
    simp [crawlUnit, writePaFile, h]
  · intro hno hmem
    rw [remainingUnits]
    rw [List.mem_filter]
    exact ⟨hmem, by simp [hno]⟩

/-- Witness for C10 at a concrete failing oracle (every fetch returns
`None`, so the unit collects zero records). -/
theorem zero_record_unit_recrawled_witness :
    ((crawlOnePa ((fun _ _ => none) "a") parseC1 (CrawlState.mk none false [])).2.1 = []) ∧
    (crawlUnit (fun _ _ => none) parseC1 "a" (CrawlState.mk none false []) emptyDir).2.1
      = emptyDir ∧
    (∀ f ∈ (runUnits (fun _ _ => none) parseC1 ["a"] (CrawlState.mk none false [])
        emptyDir).2.1.paFiles, f.2 ≠ []) ∧
    "a" ∈ remainingUnits ["a"] emptyDir := by
  have h := zero_record_unit_recrawled (fun _ _ => none) parseC1 "a"
    (CrawlState.mk none false []) emptyDir ["a"]
  have hz : (crawlOnePa ((fun _ _ => none) "a") parseC1 (CrawlState.mk none false [])).2.1
      = [] := by decide
  exact ⟨hz, h.1 hz, h.2.1 (by intro f hf; simp [emptyDir] at hf),
    h.2.2 (by decide) (by decide)⟩

/-! ## Claim C3: deterministic first-seen-wins merge -/

theorem rmGet_append (k : String) (l1 l2 : RecMap) :
    rmGet k (l1 ++ l2) =
      match rmGet k l1 with
      | some v => some v
      | none => rmGet k l2 := by
  induction l1 with
  | nil => simp [rmGet]
  | cons e rest ih =>
    by_cases h : e.1 = k
    · simp [rmGet, h]
    · simp [rmGet, h, ih]

theorem rmGet_isSome_iff (k : String) (m : RecMap) :
    (rmGet k m).isSome = true ↔ k ∈ rmKeys m := by
  induction m with
  | nil => simp [rmGet, rmKeys]
  | cons e rest ih =>
    by_cases h : e.1 = k
    · simp [rmGet, rmKeys, h]
    · simp [rmGet, rmKeys, h, ih]
      intro hcon
      exact absurd hcon.symm h

theorem foldl_rmInsAbs_preserve (k : String) :
    ∀ (l : List (String × RecPayload)) (acc : RecMap),
      (rmGet k acc).isSome = true →
      rmGet k (l.foldl rmInsAbs acc) = rmGet k acc := by
  intro l
  induction l with
  | nil =>
    intro acc _
    rfl
  | cons e rest ih =>
    intro acc hacc
    rw [List.foldl_cons]
    by_cases h : rmHasKey acc e.1 = true
    · rw [show rmInsAbs acc e = acc from by simp [rmInsAbs, h]]
      exact ih acc hacc
    · rw [show rmInsAbs acc e = acc ++ [e] from by simp [rmInsAbs, h]]
      have hget : rmGet k (acc ++ [e]) = rmGet k acc := by
        rw [rmGet_append]
        rcases hv : rmGet k acc with _ | v
        · rw [hv] at hacc
          simp at hacc
        · simp
      rw [ih (acc ++ [e]) (by rw [hget]; exact hacc), hget]

theorem foldl_rmInsAbs_new (k : String) :
    ∀ (l : List (String × RecPayload)) (acc : RecMap),
      rmHasKey acc k = false →
      rmGet k (l.foldl rmInsAbs acc) = rmGet k l := by
  intro l
  induction l with
  | nil =>
    intro acc hacc
    rw [rmHasKey] at hacc
    rw [List.foldl_nil]
    rcases hv : rmGet k acc with _ | v
    · rfl
    · rw [hv] at hacc
      simp at hacc
  | cons e rest ih =>
    intro acc hacc
    have haccnone : rmGet k acc = none := by
      rw [rmHasKey] at hacc
      rcases hv : rmGet k acc with _ | v
      · rfl
      · rw [hv] at hacc
        simp at hacc
    rw [List.foldl_cons]
    by_cases hek : e.1 = k
    · have hnotin : rmHasKey acc e.1 = false := by rw [hek]; exact hacc
      rw [show rmInsAbs acc e = acc ++ [e] from by simp [rmInsAbs, hnotin]]
      have hget : rmGet k (acc ++ [e]) = some e.2 := by
        rw [rmGet_append, haccnone]
        simp [rmGet, hek]
      rw [foldl_rmInsAbs_preserve k rest (acc ++ [e]) (by rw [hget]; rfl), hget]
      simp [rmGet, hek]
    · have hstep : rmHasKey (rmInsAbs acc e) k = false := by
        rw [rmInsAbs]
        by_cases h : rmHasKey acc e.1 = true
        · rw [if_pos h]
          exact hacc
        · rw [if_neg h, rmHasKey, rmGet_append, haccnone]
          simp [rmGet, hek]
      rw [ih (rmInsAbs acc e) hstep]
      simp [rmGet, hek]

theorem foldl_rmInsAbs_hasKey (k : String) :
    ∀ (l : List (String × RecPayload)) (acc : RecMap),
      rmHasKey (l.foldl rmInsAbs acc) k = (rmHasKey acc k || rmHasKey l k) := by
  intro l acc
  by_cases hacc : rmHasKey acc k = true
  · rw [hacc, Bool.true_or, rmHasKey,
      foldl_rmInsAbs_preserve k l acc (by rw [rmHasKey] at hacc; exact hacc)]
    rw [rmHasKey] at hacc
    exact hacc
  · have hacc2 : rmHasKey acc k = false := by
      cases h : rmHasKey acc k
      · rfl
      · exact absurd h hacc
    rw [hacc2, Bool.false_or, rmHasKey, foldl_rmInsAbs_new k l acc hacc2]
    rfl

theorem rmKeys_append (l1 l2 : RecMap) : rmKeys (l1 ++ l2) = rmKeys l1 ++ rmKeys l2 :=
  List.map_append _ _ _

theorem foldl_rmInsAbs_nodup :
    ∀ (l : List (String × RecPayload)) (acc : RecMap),
      (rmKeys acc).Nodup → (rmKeys (l.foldl rmInsAbs acc)).Nodup := by
  intro l
  induction l with
  | nil =>
    intro acc h
    exact h
  | cons e rest ih =>
    intro acc h
    rw [List.foldl_cons]
    by_cases hk : rmHasKey acc e.1 = true
    · rw [show rmInsAbs acc e = acc from by simp [rmInsAbs, hk]]
      exact ih acc h
    · rw [show rmInsAbs acc e = acc ++ [e] from by simp [rmInsAbs, hk]]
      refine ih (acc ++ [e]) ?_
      rw [rmKeys_append]
      rw [List.nodup_append]
      refine ⟨h, List.nodup_singleton _, ?_⟩
      intro a ha hb
      rcases List.mem_singleton.mp hb with rfl
      have : (rmGet e.1 acc).isSome = true := (rmGet_isSome_iff e.1 acc).mpr ha
      rw [rmHasKey] at hk
      exact hk this

theorem mergeFold_preserve (k : String) :
    ∀ (fl : List (String × RecMap)) (acc : RecMap),
      (rmGet k acc).isSome = true →
      rmGet k (fl.foldl (fun acc f => f.2.foldl rmInsAbs acc) acc) = rmGet k acc := by
  intro fl
  induction fl with
  | nil =>
    intro acc _
    rfl
  | cons f rest ih =>
    intro acc hacc
    rw [List.foldl_cons]
    have hinner := foldl_rmInsAbs_preserve k f.2 acc hacc
    rw [ih (f.2.foldl rmInsAbs acc) (by rw [hinner]; exact hacc), hinner]

theorem mergeFold_get (k : String) :
    ∀ (fl : List (String × RecMap)) (acc : RecMap),
      rmHasKey acc k = false →
      rmGet k (fl.foldl (fun acc f => f.2.foldl rmInsAbs acc) acc) =
        (match fl.find? (fun f => rmHasKey f.2 k) with
         | some f => rmGet k f.2
         | none => none) := by
  intro fl
  induction fl with
  | nil =>
    intro acc hacc
    rw [rmHasKey] at hacc
    rw [List.foldl_nil, List.find?_nil]
    rcases hv : rmGet k acc with _ | v
    · rfl
    · rw [hv] at hacc
      simp at hacc
  | cons f0 rest ih =>
    intro acc hacc
    rw [List.foldl_cons]
    by_cases hc : rmHasKey f0.2 k = true
    · have hinner : rmGet k (f0.2.foldl rmInsAbs acc) = rmGet k f0.2 :=
        foldl_rmInsAbs_new k f0.2 acc hacc
      have hsome : (rmGet k (f0.2.foldl rmInsAbs acc)).isSome = true := by
        rw [hinner]
        rw [rmHasKey] at hc
        exact hc
      have hfind0 : List.find? (fun f => rmHasKey f.2 k) (f0 :: rest) = some f0 :=
        List.find?_cons_of_pos (p := fun f => rmHasKey f.2 k) rest hc
      rw [mergeFold_preserve k rest _ hsome, hinner, hfind0]
    · have hc2 : rmHasKey f0.2 k = false := by
        cases h : rmHasKey f0.2 k
        · rfl
        · exact absurd h hc
      have hstep : rmHasKey (f0.2.foldl rmInsAbs acc) k = false := by
        rw [foldl_rmInsAbs_hasKey, hacc, hc2]
        rfl
      have hfind0 : List.find? (fun f => rmHasKey f.2 k) (f0 :: rest)
          = List.find? (fun f => rmHasKey f.2 k) rest :=
        List.find?_cons_of_neg (p := fun f => rmHasKey f.2 k) rest (by simp [hc2])
      rw [ih _ hstep, hfind0]

theorem mergeFold_nodup :
    ∀ (fl : List (String × RecMap)) (acc : RecMap),
      (rmKeys acc).Nodup →
      (rmKeys (fl.foldl (fun acc f => f.2.foldl rmInsAbs acc) acc)).Nodup := by
  intro fl
  induction fl with
  | nil =>
    intro acc h
    exact h
  | cons f rest ih =>
    intro acc h
    exact ih _ (foldl_rmInsAbs_nodup f.2 acc h)

theorem nodupKeys_mem_eq {α β : Type} (l : List (α × β))
    (h : (l.map Prod.fst).Nodup) {a b : α × β}
    (ha : a ∈ l) (hb : b ∈ l) (hab : a.1 = b.1) : a = b := by
  induction l with
  | nil => exact absurd ha (List.not_mem_nil a)
  | cons e rest ih =>
    rw [List.map_cons, List.nodup_cons] at h
    rcases List.mem_cons.mp ha with rfl | ha2
    · rcases List.mem_cons.mp hb with rfl | hb2
      · rfl
      · exact absurd (hab ▸ List.mem_map_of_mem Prod.fst hb2) h.1
    · rcases List.mem_cons.mp hb with rfl | hb2
      · exact absurd (hab ▸ List.mem_map_of_mem Prod.fst ha2) h.1
      · exact ih h.2 ha2 hb2

theorem find?_decomp {α : Type} (p : α → Bool) :
    ∀ (l : List α) (b : α), l.find? p = some b →
      ∃ l1 l2, l = l1 ++ b :: l2 ∧ ∀ a ∈ l1, p a = false := by
  intro l
  induction l with
  | nil =>
    intro b h
    exact Option.noConfusion h
  | cons x rest ih =>
    intro b h
    by_cases hx : p x = true
    · rw [List.find?_cons_of_pos (p := p) rest hx] at h
      rcases Option.some.inj h with rfl
      exact ⟨[], rest, rfl, fun a ha => absurd ha (List.not_mem_nil a)⟩
    · have hx2 : p x = false := by
        cases hv : p x
        · rfl
        · exact absurd hv hx
      rw [List.find?_cons_of_neg (p := p) rest (by simp [hx2])] at h
      rcases ih b h with ⟨l1, l2, hdec, hall⟩
      refine ⟨x :: l1, l2, by rw [hdec]; rfl, ?_⟩
      intro a ha
      rcases List.mem_cons.mp ha with rfl | ha2
      · exact hx2
      · exact hall a ha2

/-- C3.  The merge loads the per-unit checkpoint files in sorted order
of unit slug (Python string order, lexicographic by code point) and
keeps, for every record identifier `u`, exactly one entry: the payload
from the unit that sorts first among the units containing `u` — later
occurrences are dropped, never overwritten, and the merged keys are
duplicate-free. -/
theorem merge_first_seen_wins (files : List (String × RecMap)) (u s0 : String)
    (pa : RecMap)
    (hnodup : (files.map Prod.fst).Nodup)
    (hmem : (s0, pa) ∈ files)
    (hcont : rmHasKey pa u = true)
    (hmin : ∀ s ∈ slugsContaining u files, slugLe s0 s = true) :
    rmGet u (merge_pa_files files none) = rmGet u pa ∧
    (rmGet u pa).isSome = true ∧
    (rmKeys (merge_pa_files files none)).Nodup := by
  have hmerge : merge_pa_files files none =
      (sortPaFiles files).foldl (fun acc f => f.2.foldl rmInsAbs acc) [] := rfl
  have hperm : (sortPaFiles files).Perm files := by
    rw [sortPaFiles]
    exact List.perm_insertionSort (fun a b => slugLe a.1 b.1 = true) files
  haveI : IsTotal (String × RecMap) (fun a b => slugLe a.1 b.1 = true) :=
    ⟨fun a b => charsLe_total a.1.data b.1.data⟩
  haveI : IsTrans (String × RecMap) (fun a b => slugLe a.1 b.1 = true) :=
    ⟨fun _ _ _ h1 h2 => charsLe_trans h1 h2⟩
  have hsorted : List.Sorted (fun a b => slugLe a.1 b.1 = true) (sortPaFiles files) := by
    rw [sortPaFiles]
    exact List.sorted_insertionSort (fun a b => slugLe a.1 b.1 = true) files
  have hmemL : (s0, pa) ∈ sortPaFiles files := hperm.mem_iff.mpr hmem
  have hfind : ∃ fstar, (sortPaFiles files).find? (fun f => rmHasKey f.2 u) = some fstar := by
    have hex : ∃ x ∈ sortPaFiles files, (fun f => rmHasKey f.2 u) x = true :=
      ⟨(s0, pa), hmemL, hcont⟩
    rcases hop : (sortPaFiles files).find? (fun f => rmHasKey f.2 u) with _ | fstar
    · rw [← List.find?_isSome] at hex
      rw [hop] at hex
      simp at hex
    · exact ⟨fstar, hop⟩
  rcases hfind with ⟨fstar, hfind⟩
  have hpred : rmHasKey fstar.2 u = true := by
    have hp := List.find?_some hfind
    exact hp
  have hstarmem : fstar ∈ sortPaFiles files := List.mem_of_find?_eq_some hfind
  have hstar_eq : fstar = (s0, pa) := by
    rcases find?_decomp _ _ _ hfind with ⟨l1, l2, hdec, hall⟩
    have hs0l1 : (s0, pa) ∉ l1 := by
      intro hin
      have h5 : rmHasKey pa u = false := hall _ hin
      rw [hcont] at h5
      exact Bool.noConfusion h5
    have hs0loc : (s0, pa) = fstar ∨ (s0, pa) ∈ l2 := by
      rw [hdec] at hmemL
      rcases List.mem_append.mp hmemL with h | h
      · exact absurd h hs0l1
      · rcases List.mem_cons.mp h with h | h
        · exact Or.inl h
        · exact Or.inr h
    rcases hs0loc with h | h
    · exact h.symm
    · have hle1 : slugLe fstar.1 s0 = true := by
        rw [hdec] at hsorted
        have hpw := (List.pairwise_append.mp hsorted).2.1
        exact (List.pairwise_cons.mp hpw).1 (s0, pa) h
      have hle2 : slugLe s0 fstar.1 = true := by
        apply hmin
        rw [slugsContaining]
        apply List.mem_map_of_mem Prod.fst
        rw [List.mem_filter]
        exact ⟨hperm.mem_iff.mp hstarmem, hpred⟩
      have heq : fstar.1 = s0 := slugLe_antisymm hle1 hle2
      exact nodupKeys_mem_eq files hnodup (hperm.mem_iff.mp hstarmem) hmem heq
  refine ⟨?_, ?_, ?_⟩
  · rw [hmerge, mergeFold_get u (sortPaFiles files) [] rfl, hfind, hstar_eq]
  · rw [rmHasKey] at hcont
    exact hcont
  · rw [hmerge]
    exact mergeFold_nodup (sortPaFiles files) [] List.nodup_nil

/-- Witness for C3 on two concrete units that both contain "u2". -/
theorem merge_first_seen_wins_witness :
    rmGet "u2" (merge_pa_files
        [("bb", [("u2", "B2"), ("u3", "B3")]), ("aa", [("u1", "A1"), ("u2", "A2")])]
        none)
      = rmGet "u2" [("u1", "A1"), ("u2", "A2")] ∧
    rmGet "u2" (merge_pa_files
        [("bb", [("u2", "B2"), ("u3", "B3")]), ("aa", [("u1", "A1"), ("u2", "A2")])]
        none) = some "A2" ∧
    (rmKeys (merge_pa_files
        [("bb", [("u2", "B2"), ("u3", "B3")]), ("aa", [("u1", "A1"), ("u2", "A2")])]
        none)).Nodup := by
  have h := merge_first_seen_wins
    [("bb", [("u2", "B2"), ("u3", "B3")]), ("aa", [("u1", "A1"), ("u2", "A2")])]
    "u2" "aa" [("u1", "A1"), ("u2", "A2")]
    (by decide) (by decide) (by decide) (by decide)
  exact ⟨h.1, by decide, h.2.2⟩

/-! ## Claim C7: global cap honored exactly.  First: facts about the
shared-state set update and `add_uuids`. -/

theorem setUpdate_sup : ∀ (us s : List String), ∀ x ∈ s, x ∈ setUpdate s us := by
  intro us
  induction us with
  | nil =>
    intro s x hx
    exact hx
  | cons u rest ih =>
    intro s x hx
    rw [setUpdate, List.foldl_cons]
    by_cases h : u ∈ s
    · rw [if_pos h]
      exact ih s x hx
    · rw [if_neg h]
      exact ih (s ++ [u]) x (List.mem_append_left _ hx)

theorem setUpdate_mem : ∀ (us s : List String) (x : String),
    x ∈ setUpdate s us → x ∈ s ∨ x ∈ us := by
  intro us
  induction us with
  | nil =>
    intro s x hx
    exact Or.inl hx
  | cons u rest ih =>
    intro s x hx
    rw [setUpdate, List.foldl_cons] at hx
    by_cases h : u ∈ s
    · rw [if_pos h] at hx
      rcases ih s x hx with h2 | h2
      · exact Or.inl h2
      · exact Or.inr (List.mem_cons_of_mem u h2)
    · rw [if_neg h] at hx
      rcases ih (s ++ [u]) x hx with h2 | h2
      · rcases List.mem_append.mp h2 with h3 | h3
        · exact Or.inl h3
        · exact Or.inr (List.mem_cons.mpr (Or.inl (List.mem_singleton.mp h3)))
      · exact Or.inr (List.mem_cons_of_mem u h2)

theorem setUpdate_length_le : ∀ (us s : List String),
    s.length ≤ (setUpdate s us).length := by
  intro us
  induction us with
  | nil =>
    intro s
    exact Nat.le_refl _
  | cons u rest ih =>
    intro s
    rw [setUpdate, List.foldl_cons]
    by_cases h : u ∈ s
    · rw [if_pos h]
      exact ih s
    · rw [if_neg h]
      calc s.length ≤ (s ++ [u]).length := by simp
        _ ≤ _ := ih (s ++ [u])

theorem setUpdate_nodup : ∀ (us s : List String),
    s.Nodup → (setUpdate s us).Nodup := by
  intro us
  induction us with
  | nil =>
    intro s h
    exact h
  | cons u rest ih =>
    intro s h
    rw [setUpdate, List.foldl_cons]
    by_cases hm : u ∈ s
    · rw [if_pos hm]
      exact ih s h
    · rw [if_neg hm]
      refine ih (s ++ [u]) ?_
      rw [List.nodup_append]
      exact ⟨h, List.nodup_singleton u, fun a ha hb => by
        rcases List.mem_singleton.mp hb with rfl
        exact hm ha⟩

theorem add_uuids_global (st : CrawlState) (us : List String) :
    (st.add_uuids us).1.global_uuids = setUpdate st.global_uuids us := by
  rw [CrawlState.add_uuids]
  split
  · rfl
  · rfl

theorem add_uuids_max (st : CrawlState) (us : List String) :
    (st.add_uuids us).1.max_results = st.max_results := by
  rw [CrawlState.add_uuids]
  split
  · rfl
  · rfl

theorem add_uuids_false_stop (st : CrawlState) (us : List String)
    (h : (st.add_uuids us).2 = false) :
    (st.add_uuids us).1.stopFlag = st.stopFlag := by
  rw [CrawlState.add_uuids] at h ⊢
  by_cases hc : (match st.max_results with
      | some n => decide (n ≠ 0) && decide (n ≤ (setUpdate st.global_uuids us).length)
      | none => false) = true
  · rw [if_pos hc] at h
    exact Bool.noConfusion h
  · rw [if_neg hc]

theorem add_uuids_true_len (st : CrawlState) (us : List String) (N : Nat)
    (hmax : st.max_results = some N) (h : (st.add_uuids us).2 = true) :
    N ≤ (st.add_uuids us).1.global_uuids.length := by
  rw [CrawlState.add_uuids] at h ⊢
  rw [hmax] at h ⊢
  split at h
  · next hcap =>
    rw [if_pos hcap]
    simp only [Bool.and_eq_true, decide_eq_true_eq] at hcap
    exact hcap.2
  · exact Bool.noConfusion h

theorem add_uuids_stop_cases (st : CrawlState) (us : List String) (N : Nat)
    (hmax : st.max_results = some N)
    (h : (st.add_uuids us).1.stopFlag = true) :
    st.stopFlag = true ∨ N ≤ (st.add_uuids us).1.global_uuids.length := by
  cases hc : (st.add_uuids us).2 with
  | true => exact Or.inr (add_uuids_true_len st us N hmax hc)
  | false =>
    rw [add_uuids_false_stop st us hc] at h
    exact Or.inl h

theorem add_uuids_none (st : CrawlState) (us : List String)
    (hmax : st.max_results = none) :
    st.add_uuids us =
      ({ st with global_uuids := setUpdate st.global_uuids us }, false) := by
  rw [CrawlState.add_uuids, hmax]
  rfl

theorem addCards_sub : ∀ (cards : List Card) (acc : RecMap × Nat),
    ∃ t, (cards.foldl (fun acc c =>
      if rmHasKey acc.1 c.uuid then acc
      else (acc.1 ++ [(c.uuid, c.payload)], acc.2 + 1)) acc).1 = acc.1 ++ t := by
  intro cards
  induction cards with
  | nil =>
    intro acc
    exact ⟨[], by simp⟩
  | cons c rest ih =>
    intro acc
    rw [List.foldl_cons]
    by_cases h : rmHasKey acc.1 c.uuid = true
    · rw [if_pos h]
      exact ih acc
    · rw [if_neg h]
      rcases ih (acc.1 ++ [(c.uuid, c.payload)], acc.2 + 1) with ⟨t, ht⟩
      exact ⟨(c.uuid, c.payload) :: t, by rw [ht]; simp⟩

theorem addCards_len : ∀ (cards : List Card) (acc : RecMap × Nat),
    (cards.foldl (fun acc c =>
      if rmHasKey acc.1 c.uuid then acc
      else (acc.1 ++ [(c.uuid, c.payload)], acc.2 + 1)) acc).1.length + acc.2 =
    acc.1.length + (cards.foldl (fun acc c =>
      if rmHasKey acc.1 c.uuid then acc
      else (acc.1 ++ [(c.uuid, c.payload)], acc.2 + 1)) acc).2 := by
  intro cards
  induction cards with
  | nil =>
    intro acc
    rfl
  | cons c rest ih =>
    intro acc
    rw [List.foldl_cons]
    by_cases h : rmHasKey acc.1 c.uuid = true
    · rw [if_pos h]
      exact ih acc
    · rw [if_neg h]
      have h2 := ih (acc.1 ++ [(c.uuid, c.payload)], acc.2 + 1)
      simp only [List.length_append, List.length_singleton] at h2
      omega

theorem addCards_append (recs : RecMap) (cards : List Card) :
    ∃ t, (addCards recs cards).1 = recs ++ t :=
  addCards_sub cards (recs, 0)

theorem addCards_length (recs : RecMap) (cards : List Card) :
    (addCards recs cards).1.length = recs.length + (addCards recs cards).2 := by
  have h := addCards_len cards (recs, 0)
  rw [show ((recs, 0) : RecMap × Nat).1 = recs from rfl] at h
  rw [show ((recs, 0) : RecMap × Nat).2 = 0 from rfl] at h
  rw [addCards]
  omega

theorem crawlFrom_stop (f : Nat → Option String) (p : String → List Card)
    (fuel page : Nat) (st : CrawlState) (recs : RecMap) (h : st.stopFlag = true) :
    crawlFrom f p fuel page st recs = (st, recs, []) := by
  cases fuel
  · rfl
  · simp [crawlFrom, CrawlState.should_stop, h]

theorem spec_of_id (st : CrawlState) (recs : RecMap)
    (r : CrawlState × RecMap × List (Nat × Nat))
    (h1 : r.1 = st) (h2 : ∃ t, r.2.1 = recs ++ t) :
    r.1.max_results = st.max_results ∧ (∃ t, r.2.1 = recs ++ t) ∧
    (∀ x ∈ st.global_uuids, x ∈ r.1.global_uuids) ∧
    st.global_uuids.length ≤ r.1.global_uuids.length ∧
    (st.global_uuids.Nodup → r.1.global_uuids.Nodup) ∧
    (∀ u ∈ r.1.global_uuids, u ∈ st.global_uuids ∨ u ∈ rmKeys r.2.1) ∧
    (r.2.1 = [] → r.1 = st) := by
  subst h1
  exact ⟨rfl, h2, fun x hx => hx, le_refl _, id, fun u hu => Or.inl hu, fun _ => rfl⟩

theorem crawlFrom_state_spec (f : Nat → Option String) (p : String → List Card) :
    ∀ (fuel page : Nat) (st : CrawlState) (recs : RecMap),
      (crawlFrom f p fuel page st recs).1.max_results = st.max_results ∧
      (∃ t, (crawlFrom f p fuel page st recs).2.1 = recs ++ t) ∧
      (∀ x ∈ st.global_uuids, x ∈ (crawlFrom f p fuel page st recs).1.global_uuids) ∧
      st.global_uuids.length ≤ (crawlFrom f p fuel page st recs).1.global_uuids.length ∧
      (st.global_uuids.Nodup → (crawlFrom f p fuel page st recs).1.global_uuids.Nodup) ∧
      (∀ u ∈ (crawlFrom f p fuel page st recs).1.global_uuids,
        u ∈ st.global_uuids ∨ u ∈ rmKeys (crawlFrom f p fuel page st recs).2.1) ∧
      ((crawlFrom f p fuel page st recs).2.1 = [] →
        (crawlFrom f p fuel page st recs).1 = st) := by
  intro fuel
  induction fuel with
  | zero =>
    intro page st recs
    exact spec_of_id st recs _ rfl ⟨[], by simp [crawlFrom]⟩
  | succ fuel ih =>
    intro page st recs
    by_cases hstop : st.should_stop = true
    · rw [show crawlFrom f p (fuel + 1) page st recs = (st, recs, []) from by
        simp [crawlFrom, hstop]]
      exact spec_of_id st recs _ rfl ⟨[], by simp⟩
    · cases hf : f page with
      | none =>
        rw [show crawlFrom f p (fuel + 1) page st recs = (st, recs, [(page, 0)]) from by
          simp [crawlFrom, hstop, hf]]
        exact spec_of_id st recs _ rfl ⟨[], by simp⟩
      | some html =>
        by_cases hempty : (p html).isEmpty = true
        · rw [show crawlFrom f p (fuel + 1) page st recs = (st, recs, [(page, 0)]) from by
            simp [crawlFrom, hstop, hf, hempty]]
          exact spec_of_id st recs _ rfl ⟨[], by simp⟩
        · by_cases hadd : (addCards recs (p html)).2 = 0
          · rw [show crawlFrom f p (fuel + 1) page st recs
                = (st, (addCards recs (p html)).1, [(page, 0)]) from by
              simp [crawlFrom, hstop, hf, hempty, hadd]]
            exact spec_of_id st recs _ rfl (addCards_append recs (p html))
          · have hregne : (addCards recs (p html)).1 ≠ [] := by
              intro hcon
              have hlen := addCards_length recs (p html)
              rw [hcon] at hlen
              simp at hlen
              omega
            by_cases hcap : (st.add_uuids (rmKeys (addCards recs (p html)).1)).2 = true
            · rw [show crawlFrom f p (fuel + 1) page st recs
                  = ((st.add_uuids (rmKeys (addCards recs (p html)).1)).1,
                     (addCards recs (p html)).1,
                     [(page, (addCards recs (p html)).2)]) from by
                simp [crawlFrom, hstop, hf, hempty, hadd, hcap]]
              refine ⟨add_uuids_max st _, addCards_append recs (p html), ?_, ?_, ?_, ?_, ?_⟩
              · intro x hx
                rw [add_uuids_global]
                exact setUpdate_sup _ _ x hx
              · rw [add_uuids_global]
                exact setUpdate_length_le _ _
              · intro hnd
                rw [add_uuids_global]
                exact setUpdate_nodup _ _ hnd
              · intro u hu
                rw [add_uuids_global] at hu
                exact setUpdate_mem _ _ u hu
              · intro hcon
                exact absurd hcon hregne
            · obtain ⟨ihmax, ⟨t2, iht⟩, ihsup, ihlen, ihnodup, ihmem, ihnil⟩ :=
                ih (page + 1) (st.add_uuids (rmKeys (addCards recs (p html)).1)).1
                  (addCards recs (p html)).1
              rw [show crawlFrom f p (fuel + 1) page st recs
                  = ((crawlFrom f p fuel (page + 1)
                        (st.add_uuids (rmKeys (addCards recs (p html)).1)).1
                        (addCards recs (p html)).1).1,
                     (crawlFrom f p fuel (page + 1)
                        (st.add_uuids (rmKeys (addCards recs (p html)).1)).1
                        (addCards recs (p html)).1).2.1,
                     (page, (addCards recs (p html)).2) ::
                       (crawlFrom f p fuel (page + 1)
                          (st.add_uuids (rmKeys (addCards recs (p html)).1)).1
                          (addCards recs (p html)).1).2.2) from by
                simp [crawlFrom, hstop, hf, hempty, hadd, hcap]]
              refine ⟨?_, ?_, ?_, ?_, ?_, ?_, ?_⟩
              · rw [ihmax]
                exact add_uuids_max st _
              · rcases addCards_append recs (p html) with ⟨t1, ht1⟩
                exact ⟨t1 ++ t2, by rw [iht, ht1, List.append_assoc]⟩
              · intro x hx
                refine ihsup x ?_
                rw [add_uuids_global]
                exact setUpdate_sup _ _ x hx
              · calc st.global_uuids.length
                    ≤ (st.add_uuids (rmKeys (addCards recs (p html)).1)).1.global_uuids.length := by
                      rw [add_uuids_global]
                      exact setUpdate_length_le _ _
                  _ ≤ _ := ihlen
              · intro hnd
                refine ihnodup ?_
                rw [add_uuids_global]
                exact setUpdate_nodup _ _ hnd
              · intro u hu
                rcases ihmem u hu with h2 | h2
                · rw [add_uuids_global] at h2
                  rcases setUpdate_mem _ _ u h2 with h3 | h3
                  · exact Or.inl h3
                  · right
                    rw [iht, rmKeys_append]
                    exact List.mem_append_left _ h3
                · right
                  exact h2
              · intro hcon
                rw [iht] at hcon
                rcases List.append_eq_nil.mp hcon with ⟨h5, _⟩
                exact absurd h5 hregne

theorem add_uuids_true_stop (st : CrawlState) (us : List String)
    (h : (st.add_uuids us).2 = true) :
    (st.add_uuids us).1.stopFlag = true := by
  rw [CrawlState.add_uuids] at h ⊢
  by_cases hc : (match st.max_results with
      | some n => decide (n ≠ 0) && decide (n ≤ (setUpdate st.global_uuids us).length)
      | none => false) = true
  · rw [if_pos hc]
  · rw [if_neg hc] at h
    exact Bool.noConfusion h

theorem crawlFrom_capInv (f : Nat → Option String) (p : String → List Card) (N : Nat) :
    ∀ (fuel page : Nat) (st : CrawlState) (recs : RecMap),
      st.max_results = some N →
      (st.stopFlag = true → N ≤ st.global_uuids.length) →
      ((crawlFrom f p fuel page st recs).1.stopFlag = true →
        N ≤ (crawlFrom f p fuel page st recs).1.global_uuids.length) := by
  intro fuel
  induction fuel with
  | zero =>
    intro page st recs hmax hinv
    exact hinv
  | succ fuel ih =>
    intro page st recs hmax hinv
    by_cases hstop : st.should_stop = true
    · rw [show crawlFrom f p (fuel + 1) page st recs = (st, recs, []) from by
        simp [crawlFrom, hstop]]
      exact hinv
    · cases hf : f page with
      | none =>
        rw [show crawlFrom f p (fuel + 1) page st recs = (st, recs, [(page, 0)]) from by
          simp [crawlFrom, hstop, hf]]
        exact hinv
      | some html =>
        by_cases hempty : (p html).isEmpty = true
        · rw [show crawlFrom f p (fuel + 1) page st recs = (st, recs, [(page, 0)]) from by
            simp [crawlFrom, hstop, hf, hempty]]
          exact hinv
        · by_cases hadd : (addCards recs (p html)).2 = 0
          · rw [show crawlFrom f p (fuel + 1) page st recs
                = (st, (addCards recs (p html)).1, [(page, 0)]) from by
              simp [crawlFrom, hstop, hf, hempty, hadd]]
            exact hinv
          · have hcapinv : (st.add_uuids (rmKeys (addCards recs (p html)).1)).1.stopFlag = true →
                N ≤ (st.add_uuids (rmKeys (addCards recs (p html)).1)).1.global_uuids.length := by
              intro h
              rcases add_uuids_stop_cases st _ N hmax h with h2 | h2
              · calc N ≤ st.global_uuids.length := hinv h2
                  _ ≤ _ := by
                    rw [add_uuids_global]
                    exact setUpdate_length_le _ _
              · exact h2
            by_cases hcap : (st.add_uuids (rmKeys (addCards recs (p html)).1)).2 = true
            · rw [show crawlFrom f p (fuel + 1) page st recs
                  = ((st.add_uuids (rmKeys (addCards recs (p html)).1)).1,
                     (addCards recs (p html)).1,
                     [(page, (addCards recs (p html)).2)]) from by
                simp [crawlFrom, hstop, hf, hempty, hadd, hcap]]
              exact hcapinv
            · rw [show crawlFrom f p (fuel + 1) page st recs
                  = ((crawlFrom f p fuel (page + 1)
                        (st.add_uuids (rmKeys (addCards recs (p html)).1)).1
                        (addCards recs (p html)).1).1,
                     (crawlFrom f p fuel (page + 1)
                        (st.add_uuids (rmKeys (addCards recs (p html)).1)).1
                        (addCards recs (p html)).1).2.1,
                     (page, (addCards recs (p html)).2) ::
                       (crawlFrom f p fuel (page + 1)
                          (st.add_uuids (rmKeys (addCards recs (p html)).1)).1
                          (addCards recs (p html)).1).2.2) from by
                simp [crawlFrom, hstop, hf, hempty, hadd, hcap]]
              exact ih (page + 1) _ _ (by rw [add_uuids_max]; exact hmax) hcapinv

theorem crawlFrom_cap_agree (f : Nat → Option String) (p : String → List Card) (N : Nat) :
    ∀ (fuel page : Nat) (stC stU : CrawlState) (recs : RecMap),
      stC.max_results = some N → stU.max_results = none →
      stC.global_uuids = stU.global_uuids →
      stC.stopFlag = false → stU.stopFlag = false →
      (crawlFrom f p fuel page stC recs).1.stopFlag = false →
      ((crawlFrom f p fuel page stC recs).1.global_uuids
          = (crawlFrom f p fuel page stU recs).1.global_uuids ∧
        (crawlFrom f p fuel page stC recs).2 = (crawlFrom f p fuel page stU recs).2 ∧
        (crawlFrom f p fuel page stU recs).1.stopFlag = false) := by
  intro fuel
  induction fuel with
  | zero =>
    intro page stC stU recs hmC hmU hg hsC hsU hfin
    exact ⟨hg, rfl, hsU⟩
  | succ fuel ih =>
    intro page stC stU recs hmC hmU hg hsC hsU hfin
    have hstopC : ¬ stC.should_stop = true := by
      rw [CrawlState.should_stop, hsC]
      exact Bool.noConfusion
    have hstopU : ¬ stU.should_stop = true := by
      rw [CrawlState.should_stop, hsU]
      exact Bool.noConfusion
    cases hf : f page with
    | none =>
      rw [show crawlFrom f p (fuel + 1) page stC recs = (stC, recs, [(page, 0)]) from by
          simp [crawlFrom, hstopC, hf],
        show crawlFrom f p (fuel + 1) page stU recs = (stU, recs, [(page, 0)]) from by
          simp [crawlFrom, hstopU, hf]]
      exact ⟨hg, rfl, hsU⟩
    | some html =>
      by_cases hempty : (p html).isEmpty = true
      · rw [show crawlFrom f p (fuel + 1) page stC recs = (stC, recs, [(page, 0)]) from by
            simp [crawlFrom, hstopC, hf, hempty],
          show crawlFrom f p (fuel + 1) page stU recs = (stU, recs, [(page, 0)]) from by
            simp [crawlFrom, hstopU, hf, hempty]]
        exact ⟨hg, rfl, hsU⟩
      · by_cases hadd : (addCards recs (p html)).2 = 0
        · rw [show crawlFrom f p (fuel + 1) page stC recs
              = (stC, (addCards recs (p html)).1, [(page, 0)]) from by
              simp [crawlFrom, hstopC, hf, hempty, hadd],
            show crawlFrom f p (fuel + 1) page stU recs
              = (stU, (addCards recs (p html)).1, [(page, 0)]) from by
              simp [crawlFrom, hstopU, hf, hempty, hadd]]
          exact ⟨hg, rfl, hsU⟩
        · have hcapU : (stU.add_uuids (rmKeys (addCards recs (p html)).1)).2 = false := by
            rw [add_uuids_none stU _ hmU]
          by_cases hcap : (stC.add_uuids (rmKeys (addCards recs (p html)).1)).2 = true
          · rw [show crawlFrom f p (fuel + 1) page stC recs
                = ((stC.add_uuids (rmKeys (addCards recs (p html)).1)).1,
                  (addCards recs (p html)).1,
                  [(page, (addCards recs (p html)).2)]) from by
                simp [crawlFrom, hstopC, hf, hempty, hadd, hcap]] at hfin
            rw [add_uuids_true_stop stC _ hcap] at hfin
            exact Bool.noConfusion hfin
          · have hgC : (stC.add_uuids (rmKeys (addCards recs (p html)).1)).1.global_uuids
                = (stU.add_uuids (rmKeys (addCards recs (p html)).1)).1.global_uuids := by
              rw [add_uuids_global, add_uuids_global, hg]
            have hcapFalse : (stC.add_uuids (rmKeys (addCards recs (p html)).1)).2 = false := by
              cases h : (stC.add_uuids (rmKeys (addCards recs (p html)).1)).2
              · rfl
              · exact absurd h hcap
            have hsC2 : (stC.add_uuids (rmKeys (addCards recs (p html)).1)).1.stopFlag = false := by
              rw [add_uuids_false_stop _ _ hcapFalse]
              exact hsC
            have hsU2 : (stU.add_uuids (rmKeys (addCards recs (p html)).1)).1.stopFlag = false := by
              rw [add_uuids_none stU _ hmU]
              exact hsU
            have hrwC : crawlFrom f p (fuel + 1) page stC recs
                = ((crawlFrom f p fuel (page + 1)
                      (stC.add_uuids (rmKeys (addCards recs (p html)).1)).1
                      (addCards recs (p html)).1).1,
                  (crawlFrom f p fuel (page + 1)
                      (stC.add_uuids (rmKeys (addCards recs (p html)).1)).1
                      (addCards recs (p html)).1).2.1,
                  (page, (addCards recs (p html)).2) ::
                    (crawlFrom f p fuel (page + 1)
                        (stC.add_uuids (rmKeys (addCards recs (p html)).1)).1
                        (addCards recs (p html)).1).2.2) := by
              simp [crawlFrom, hstopC, hf, hempty, hadd, hcap]
            have hrwU : crawlFrom f p (fuel + 1) page stU recs
                = ((crawlFrom f p fuel (page + 1)
                      (stU.add_uuids (rmKeys (addCards recs (p html)).1)).1
                      (addCards recs (p html)).1).1,
                  (crawlFrom f p fuel (page + 1)
                      (stU.add_uuids (rmKeys (addCards recs (p html)).1)).1
                      (addCards recs (p html)).1).2.1,
                  (page, (addCards recs (p html)).2) ::
                    (crawlFrom f p fuel (page + 1)
                        (stU.add_uuids (rmKeys (addCards recs (p html)).1)).1
                        (addCards recs (p html)).1).2.2) := by
              simp [crawlFrom, hstopU, hf, hempty, hadd, hcapU]
            rw [hrwC] at hfin
            obtain ⟨ihg, ihr, ihs⟩ := ih (page + 1)
              (stC.add_uuids (rmKeys (addCards recs (p html)).1)).1
              (stU.add_uuids (rmKeys (addCards recs (p html)).1)).1
              (addCards recs (p html)).1
              (by rw [add_uuids_max]; exact hmC)
              (by rw [add_uuids_max]; exact hmU)
              hgC hsC2 hsU2 hfin
            rw [hrwC, hrwU]
            refine ⟨ihg, ?_, ihs⟩
            rw [show ((crawlFrom f p fuel (page + 1)
                (stC.add_uuids (rmKeys (addCards recs (p html)).1)).1
                (addCards recs (p html)).1).2.1)
              = (crawlFrom f p fuel (page + 1)
                (stC.add_uuids (rmKeys (addCards recs (p html)).1)).1
                (addCards recs (p html)).1).2.1 from rfl]
            rw [Prod.ext_iff] at ihr
            rw [ihr.1, ihr.2]

theorem runUnits_stop (oracle : String → Nat → Option String) (parse : String → List Card) :
    ∀ (pas : List String) (st : CrawlState) (fs : DataDir),
      st.stopFlag = true → runUnits oracle parse pas st fs = (st, fs, []) := by
  intro pas
  induction pas with
  | nil =>
    intro st fs _
    rfl
  | cons pa rest ih =>
    intro st fs h
    have hunit : crawlUnit oracle parse pa st fs = (st, fs, []) := by
      rw [crawlUnit, crawlFrom_stop _ _ _ _ _ _ h]
      simp [writePaFile]
    simp only [runUnits, hunit]
    rw [ih st fs h]
    rfl

theorem runUnits_state_spec (oracle : String → Nat → Option String)
    (parse : String → List Card) :
    ∀ (pas : List String) (st : CrawlState) (fs : DataDir),
      (runUnits oracle parse pas st fs).1.max_results = st.max_results ∧
      (∀ x ∈ st.global_uuids, x ∈ (runUnits oracle parse pas st fs).1.global_uuids) ∧
      st.global_uuids.length ≤ (runUnits oracle parse pas st fs).1.global_uuids.length ∧
      (st.global_uuids.Nodup → (runUnits oracle parse pas st fs).1.global_uuids.Nodup) := by
  intro pas
  induction pas with
  | nil =>
    intro st fs
    exact ⟨rfl, fun x hx => hx, le_refl _, id⟩
  | cons pa rest ih =>
    intro st fs
    obtain ⟨umax, _, usup, ulen, unodup, _, _⟩ :=
      crawlFrom_state_spec (oracle pa) parse Config.MAX_PAGES_PER_CATEGORY 1 st []
    obtain ⟨imax, isup, ilen, inodup⟩ :=
      ih (crawlFrom (oracle pa) parse Config.MAX_PAGES_PER_CATEGORY 1 st []).1
        (writePaFile fs pa
          (crawlFrom (oracle pa) parse Config.MAX_PAGES_PER_CATEGORY 1 st []).2.1)
    refine ⟨?_, ?_, ?_, ?_⟩ <;> simp only [runUnits, crawlUnit]
    · rw [imax, umax]
    · intro x hx
      exact isup x (usup x hx)
    · exact le_trans ulen ilen
    · intro hnd
      exact inodup (unodup hnd)

theorem runUnits_capInv (oracle : String → Nat → Option String)
    (parse : String → List Card) (N : Nat) :
    ∀ (pas : List String) (st : CrawlState) (fs : DataDir),
      st.max_results = some N →
      (st.stopFlag = true → N ≤ st.global_uuids.length) →
      ((runUnits oracle parse pas st fs).1.stopFlag = true →
        N ≤ (runUnits oracle parse pas st fs).1.global_uuids.length) := by
  intro pas
  induction pas with
  | nil =>
    intro st fs _ hinv
    exact hinv
  | cons pa rest ih =>
    intro st fs hmax hinv
    obtain ⟨umax, _, _, _, _, _, _⟩ :=
      crawlFrom_state_spec (oracle pa) parse Config.MAX_PAGES_PER_CATEGORY 1 st []
    have hunit := crawlFrom_capInv (oracle pa) parse N Config.MAX_PAGES_PER_CATEGORY 1 st []
      hmax hinv
    simp only [runUnits, crawlUnit]
    exact ih _ _ (by rw [umax]; exact hmax) hunit

theorem runUnits_covers (oracle : String → Nat → Option String)
    (parse : String → List Card) :
    ∀ (pas : List String) (st : CrawlState) (fs : DataDir),
      pas.Nodup →
      (∀ pa ∈ pas, fs.hasPa pa = false) →
      (∀ u ∈ st.global_uuids, ∃ f ∈ fs.paFiles, rmHasKey f.2 u = true) →
      ∀ u ∈ (runUnits oracle parse pas st fs).1.global_uuids,
        ∃ f ∈ (runUnits oracle parse pas st fs).2.1.paFiles, rmHasKey f.2 u = true := by
  intro pas
  induction pas with
  | nil =>
    intro st fs _ _ hcov
    exact hcov
  | cons pa rest ih =>
    intro st fs hnd hnofile hcov
    rw [List.nodup_cons] at hnd
    obtain ⟨_, _, _, _, _, umem, unil⟩ :=
      crawlFrom_state_spec (oracle pa) parse Config.MAX_PAGES_PER_CATEGORY 1 st []
    simp only [runUnits, crawlUnit]
    by_cases hrec :
        (crawlFrom (oracle pa) parse Config.MAX_PAGES_PER_CATEGORY 1 st []).2.1 = []
    · rw [hrec]
      rw [show writePaFile fs pa [] = fs from by simp [writePaFile]]
      rw [unil hrec]
      exact ih st fs hnd.2 (fun q hq => hnofile q (List.mem_cons_of_mem pa hq)) hcov
    · have hpafalse : fs.hasPa pa = false := hnofile pa (List.mem_cons_self pa rest)
      have hwrite : writePaFile fs pa
          (crawlFrom (oracle pa) parse Config.MAX_PAGES_PER_CATEGORY 1 st []).2.1
          = { fs with paFiles := fs.paFiles ++
              [(pa, (crawlFrom (oracle pa) parse Config.MAX_PAGES_PER_CATEGORY 1 st []).2.1)] } := by
        rw [writePaFile,
          if_neg (by rw [List.isEmpty_eq_true]; exact hrec),
          DataDir.setPa, if_neg (by rw [hpafalse]; exact Bool.noConfusion)]
      rw [hwrite]
      refine ih _ _ hnd.2 ?_ ?_
      · intro q hq
        have hqpa : ¬ pa = q := by
          intro hcon
          rw [hcon] at hnd
          exact hnd.1 hq
        have h1 : fs.hasPa q = false := hnofile q (List.mem_cons_of_mem pa hq)
        rw [DataDir.hasPa] at h1 ⊢
        simp only [List.any_append, h1, Bool.false_or]
        simp [hqpa]
      · intro u hu
        rcases umem u hu with h | h
        · rcases hcov u h with ⟨f, hf, hkey⟩
          exact ⟨f, List.mem_append_left _ hf, hkey⟩
        · refine ⟨(pa, (crawlFrom (oracle pa) parse Config.MAX_PAGES_PER_CATEGORY 1 st []).2.1),
            List.mem_append_right _ (List.mem_singleton_self _), ?_⟩
          rw [rmHasKey, rmGet_isSome_iff]
          exact h

theorem runUnits_cap_agree (oracle : String → Nat → Option String)
    (parse : String → List Card) (N : Nat) :
    ∀ (pas : List String) (stC stU : CrawlState) (fs : DataDir),
      stC.max_results = some N → stU.max_results = none →
      stC.global_uuids = stU.global_uuids →
      stC.stopFlag = false → stU.stopFlag = false →
      (runUnits oracle parse pas stC fs).1.stopFlag = false →
      ((runUnits oracle parse pas stC fs).1.global_uuids
          = (runUnits oracle parse pas stU fs).1.global_uuids ∧
        (runUnits oracle parse pas stC fs).2 = (runUnits oracle parse pas stU fs).2) := by
  intro pas
  induction pas with
  | nil =>
    intro stC stU fs hmC hmU hg hsC hsU hfin
    exact ⟨hg, rfl⟩
  | cons pa rest ih =>
    intro stC stU fs hmC hmU hg hsC hsU hfin
    obtain ⟨umaxC, _, _, _, _, _, _⟩ :=
      crawlFrom_state_spec (oracle pa) parse Config.MAX_PAGES_PER_CATEGORY 1 stC []
    obtain ⟨umaxU, _, _, _, _, _, _⟩ :=
      crawlFrom_state_spec (oracle pa) parse Config.MAX_PAGES_PER_CATEGORY 1 stU []
    have hfC : (crawlFrom (oracle pa) parse Config.MAX_PAGES_PER_CATEGORY 1 stC []).1.stopFlag
        = false := by
      cases hv : (crawlFrom (oracle pa) parse Config.MAX_PAGES_PER_CATEGORY 1 stC []).1.stopFlag
      · rfl
      · exfalso
        have hstopped := runUnits_stop oracle parse rest
          (crawlFrom (oracle pa) parse Config.MAX_PAGES_PER_CATEGORY 1 stC []).1
          (writePaFile fs pa
            (crawlFrom (oracle pa) parse Config.MAX_PAGES_PER_CATEGORY 1 stC []).2.1) hv
        simp only [runUnits, crawlUnit] at hfin
        rw [hstopped] at hfin
        rw [hv] at hfin
        exact Bool.noConfusion hfin
    obtain ⟨hg1, hr1, hsU1⟩ := crawlFrom_cap_agree (oracle pa) parse N
      Config.MAX_PAGES_PER_CATEGORY 1 stC stU [] hmC hmU hg hsC hsU hfC
    have hrecs : (crawlFrom (oracle pa) parse Config.MAX_PAGES_PER_CATEGORY 1 stC []).2.1
        = (crawlFrom (oracle pa) parse Config.MAX_PAGES_PER_CATEGORY 1 stU []).2.1 := by
      rw [Prod.ext_iff] at hr1
      exact hr1.1
    have hlog : (crawlFrom (oracle pa) parse Config.MAX_PAGES_PER_CATEGORY 1 stC []).2.2
        = (crawlFrom (oracle pa) parse Config.MAX_PAGES_PER_CATEGORY 1 stU []).2.2 := by
      rw [Prod.ext_iff] at hr1
      exact hr1.2
    have hfinC : (runUnits oracle parse rest
        (crawlFrom (oracle pa) parse Config.MAX_PAGES_PER_CATEGORY 1 stC []).1
        (writePaFile fs pa
          (crawlFrom (oracle pa) parse Config.MAX_PAGES_PER_CATEGORY 1 stC []).2.1)).1.stopFlag
        = false := by
      simp only [runUnits, crawlUnit] at hfin
      exact hfin
    obtain ⟨ihg, ihr⟩ := ih
      (crawlFrom (oracle pa) parse Config.MAX_PAGES_PER_CATEGORY 1 stC []).1
      (crawlFrom (oracle pa) parse Config.MAX_PAGES_PER_CATEGORY 1 stU []).1
      (writePaFile fs pa
        (crawlFrom (oracle pa) parse Config.MAX_PAGES_PER_CATEGORY 1 stC []).2.1)
      (by rw [umaxC]; exact hmC) (by rw [umaxU]; exact hmU) hg1 hfC hsU1 hfinC
    simp only [runUnits, crawlUnit]
    rw [← hrecs]
    refine ⟨ihg, ?_⟩
    rw [Prod.ext_iff] at ihr
    rw [Prod.ext_iff]
    constructor
    · exact ihr.1
    · simp only []
      rw [ihr.2, hlog]

theorem mergeFold_hasKey (k : String) :
    ∀ (fl : List (String × RecMap)) (acc : RecMap),
      rmHasKey (fl.foldl (fun acc f => f.2.foldl rmInsAbs acc) acc) k
        = (rmHasKey acc k || fl.any (fun f => rmHasKey f.2 k)) := by
  intro fl
  induction fl with
  | nil =>
    intro acc
    simp
  | cons f rest ih =>
    intro acc
    rw [List.foldl_cons, ih, foldl_rmInsAbs_hasKey, List.any_cons, Bool.or_assoc]

theorem merge_covers_length (files : List (String × RecMap)) (g : List String)
    (hnd : g.Nodup)
    (hcov : ∀ u ∈ g, ∃ f ∈ files, rmHasKey f.2 u = true) :
    g.length ≤ (merge_pa_files files none).length := by
  have hperm : (sortPaFiles files).Perm files := by
    rw [sortPaFiles]
    exact List.perm_insertionSort _ files
  have hsub : ∀ u ∈ g, u ∈ rmKeys (merge_pa_files files none) := by
    intro u hu
    rcases hcov u hu with ⟨f, hf, hkey⟩
    have hk : rmHasKey (merge_pa_files files none) u = true := by
      rw [show merge_pa_files files none
          = (sortPaFiles files).foldl (fun acc f => f.2.foldl rmInsAbs acc) [] from rfl,
        mergeFold_hasKey]
      have hany : (sortPaFiles files).any (fun f => rmHasKey f.2 u) = true := by
        rw [List.any_eq_true]
        exact ⟨f, hperm.mem_iff.mpr hf, hkey⟩
      rw [hany]
      simp
    rw [rmHasKey] at hk
    exact (rmGet_isSome_iff u _).mp hk
  have hsubperm := hnd.subperm hsub
  calc g.length ≤ (rmKeys (merge_pa_files files none)).length := hsubperm.length_le
    _ = (merge_pa_files files none).length := List.length_map _ _

theorem merge_trim (files : List (String × RecMap)) (N : Nat) (hN : N ≠ 0)
    (hlen : N ≤ (merge_pa_files files none).length) :
    merge_pa_files files (some N) = (merge_pa_files files none).take N ∧
    (merge_pa_files files (some N)).length = N := by
  rw [show merge_pa_files files (some N)
      = (if N ≠ 0 ∧ N < (merge_pa_files files none).length
         then (merge_pa_files files none).take N else merge_pa_files files none) from rfl]
  by_cases h : N < (merge_pa_files files none).length
  · rw [if_pos ⟨hN, h⟩]
    exact ⟨rfl, by rw [List.length_take]; omega⟩
  · rw [if_neg (by intro hcon; omega)]
    have heq : N = (merge_pa_files files none).length := by omega
    constructor
    · rw [heq, List.take_length]
    · omega

theorem remainingUnits_emptyDir (pas : List String) :
    remainingUnits pas emptyDir = pas := by
  rw [remainingUnits]
  apply List.filter_eq_self.mpr
  intro pa _
  simp [emptyDir, DataDir.hasPa]

/-- C7.  With a configured `max_results = N` (nonzero), distinct unit
slugs, and units that would — in the uncapped run — discover at least
`N` unique identifiers in total, the capped crawl (which checks the cap
through the shared `CrawlState` once per fully-processed page) produces
a final merged `listings.json` holding exactly `N` identifiers, namely
the first `N` in the deterministic sorted-merge order. -/
theorem global_cap_exact (oracle : String → Nat → Option String)
    (parse : String → List Card) (pas : List String) (N : Nat)
    (hnodup : pas.Nodup) (hN : N ≠ 0)
    (hdiscover : N ≤ (runUnits oracle parse pas
      (CrawlState.mk none false []) emptyDir).1.global_uuids.length) :
    (crawlListingsRun oracle parse pas false (some N) emptyDir).1.listings
      = some (merge_pa_files (runUnits oracle parse pas
          (CrawlState.mk (some N) false []) emptyDir).2.1.paFiles (some N)) ∧
    (merge_pa_files (runUnits oracle parse pas
        (CrawlState.mk (some N) false []) emptyDir).2.1.paFiles (some N)).length = N ∧
    merge_pa_files (runUnits oracle parse pas
        (CrawlState.mk (some N) false []) emptyDir).2.1.paFiles (some N)
      = (merge_pa_files (runUnits oracle parse pas
          (CrawlState.mk (some N) false []) emptyDir).2.1.paFiles none).take N := by
  have hlist : (crawlListingsRun oracle parse pas false (some N) emptyDir).1.listings
      = some (merge_pa_files (runUnits oracle parse pas
          (CrawlState.mk (some N) false []) emptyDir).2.1.paFiles (some N)) := by
    rw [crawlListingsRun]
    simp only [if_neg (by simp : ¬ false = true)]
    rw [remainingUnits_emptyDir]
    rfl
  have hcov : ∀ u ∈ (runUnits oracle parse pas
      (CrawlState.mk (some N) false []) emptyDir).1.global_uuids,
      ∃ f ∈ (runUnits oracle parse pas
        (CrawlState.mk (some N) false []) emptyDir).2.1.paFiles,
        rmHasKey f.2 u = true := by
    refine runUnits_covers oracle parse pas _ emptyDir hnodup (fun pa _ => rfl) ?_
    intro u hu
    exact absurd hu (List.not_mem_nil u)
  have hnd : (runUnits oracle parse pas
      (CrawlState.mk (some N) false []) emptyDir).1.global_uuids.Nodup :=
    (runUnits_state_spec oracle parse pas _ emptyDir).2.2.2 List.nodup_nil
  have hlen : N ≤ (runUnits oracle parse pas
      (CrawlState.mk (some N) false []) emptyDir).1.global_uuids.length := by
    cases hstopC : (runUnits oracle parse pas
        (CrawlState.mk (some N) false []) emptyDir).1.stopFlag with
    | true =>
      exact runUnits_capInv oracle parse N pas _ emptyDir rfl
        (fun h => Bool.noConfusion h) hstopC
    | false =>
      obtain ⟨hg, _⟩ := runUnits_cap_agree oracle parse N pas
        (CrawlState.mk (some N) false []) (CrawlState.mk none false []) emptyDir
        rfl rfl rfl rfl rfl hstopC
      rw [hg]
      exact hdiscover
  have hmlen : N ≤ (merge_pa_files (runUnits oracle parse pas
      (CrawlState.mk (some N) false []) emptyDir).2.1.paFiles none).length :=
    le_trans hlen (merge_covers_length _ _ hnd hcov)
  obtain ⟨htake, hexact⟩ := merge_trim _ N hN hmlen
  exact ⟨hlist, hexact, htake⟩

/-- Witness for C7: two units of two records each, cap of 3. -/
theorem global_cap_exact_witness :
    (crawlListingsRun oracleC7 parseC7 ["aa", "bb"] false (some 3) emptyDir).1.listings
      = some (merge_pa_files (runUnits oracleC7 parseC7 ["aa", "bb"]
          (CrawlState.mk (some 3) false []) emptyDir).2.1.paFiles (some 3)) ∧
    (merge_pa_files (runUnits oracleC7 parseC7 ["aa", "bb"]
        (CrawlState.mk (some 3) false []) emptyDir).2.1.paFiles (some 3)).length = 3 ∧
    merge_pa_files (runUnits oracleC7 parseC7 ["aa", "bb"]
        (CrawlState.mk (some 3) false []) emptyDir).2.1.paFiles (some 3)
      = (merge_pa_files (runUnits oracleC7 parseC7 ["aa", "bb"]
          (CrawlState.mk (some 3) false []) emptyDir).2.1.paFiles none).take 3 :=
  global_cap_exact oracleC7 parseC7 ["aa", "bb"] 3 (by decide) (by decide) (by decide)

end ListHunter
